import Mathlib

/-!
Shallow embedding of the PairDrop WebSocket signalling server
(src/server/ws-server.js) together with proofs about its behaviour.

The source file concatenates two near-identical copies of the class
PairDropWsServer (lines 1-547 and lines 549-1146).  The copies agree on
all room, pairing and relay logic up to logging; they differ in the
keep-alive threshold (line 526 uses 2 * timeout, line 1124 uses
3 * timeout) and in a readyState guard before terminate/send.  The
definitions below embed the shared logic once and embed both keep-alive
checks separately.

JavaScript objects used as dictionaries (this._rooms, this._roomSecrets,
room member maps) are embedded as association lists in insertion order,
which matches the iteration order of string-keyed JS objects.  Peers are
stored once in a peers map keyed by peer id; rooms store member ids.
Sends are embedded as an output list of (recipient id, message) pairs.

Peer methods live in src/server/peer.js, which is not part of src/;
those are modelled from the spec and marked as such.
-/

namespace PairDrop

/-- Association-list lookup; embeds reading a string-keyed JS object property. -/
def alookup {α : Type} : List (String × α) → String → Option α
  | [], _ => none
  | (k, v) :: t, q => if k = q then some v else alookup t q

/-- Association-list update; embeds JS property assignment: an existing key
keeps its position, a new key is appended (insertion order). -/
def aset {α : Type} : List (String × α) → String → α → List (String × α)
  | [], k, v => [(k, v)]
  | (k0, v0) :: t, k, v =>
      if k0 = k then (k0, v) :: t else (k0, v0) :: aset t k v

/-- Association-list removal; embeds the JS delete operator. -/
def aremove {α : Type} : List (String × α) → String → List (String × α)
  | [], _ => []
  | (k0, v0) :: t, k =>
      if k0 = k then aremove t k else (k0, v0) :: aremove t k

/-- Public info of a peer as sent in peers / peer-joined messages
(peer.getInfo()).  Modelled from the spec: PeerInfo is
id, name, rtcSupported; the opaque display/device name is elided. -/
structure PeerInfo where
  id : String
  rtcSupported : Bool
deriving DecidableEq, Repr

/-- Per-connection peer state (the Peer object of peer.js, which is not in
src/).  Fields are the ones the server core reads or writes.
rateLimited is the value of the spec-modelled predicate rateLimitReached()
at the time a handler runs; readyState embeds socket.readyState (1 = open). -/
structure PeerData where
  id : String
  ip : String
  rtcSupported : Bool
  readyState : Nat
  roomSecrets : List String
  publicRoomId : Option String
  pairKey : Option String
  rateLimited : Bool
deriving DecidableEq, Repr

/-- An entry of the pair-key directory this._roomSecrets:
pairKey maps to the room secret and the creator (stored by id). -/
structure PairEntry where
  roomSecret : String
  creatorId : String
deriving DecidableEq, Repr

/-- A JSON relay message (signal / ws-fallback types).  The fields the
server reads or writes are explicit; every other field of the JSON object
is carried opaquely in rest and never touched by the relay.  toId embeds
the "to" field of the JSON message (to is a reserved token here). -/
structure Msg where
  type : String
  roomType : Option String
  roomId : Option String
  toId : Option String
  sender : Option PeerInfo
  rest : List (String × String)
deriving DecidableEq, Repr

/-- Messages the server sends to a peer (JSON frames, a relayed binary
payload, or socket.terminate()). -/
inductive OutMsg where
  | peersList (peers : List PeerInfo) (roomType roomId : String)
  | peerJoined (peer : PeerInfo) (roomType roomId : String)
  | peerLeft (peerId roomType roomId : String) (disconnect : Bool)
  | pairDeviceInitiated (roomSecret pairKey : String)
  | pairDeviceJoined (roomSecret peerId : String)
  | pairDeviceJoinKeyInvalid
  | pairDeviceCanceled (pairKey : String)
  | joinKeyRateLimit
  | secretRoomDeleted (roomSecret : String)
  | roomSecretRegenerated (oldRoomSecret newRoomSecret : String)
  | publicRoomCreated (roomId : String)
  | publicRoomIdInvalid (publicRoomId : String)
  | publicRoomLeft
  | relayed (m : Msg)
  | binary (payload : List Char)
  | terminated
deriving DecidableEq, Repr

/-- Output of a handler: (recipient peer id, message) in send order. -/
abbrev Out := List (String × OutMsg)

/-- The mutable server state: this._rooms (roomId to member ids in
insertion order), this._roomSecrets (the pair-key directory), and the
store of all Peer objects keyed by peer id. -/
structure ServerState where
  rooms : List (String × List String)
  roomSecrets : List (String × PairEntry)
  peers : List (String × PeerData)
deriving DecidableEq, Repr

/-- The empty initial state of a fresh server instance. -/
def initState : ServerState := ⟨[], [], []⟩

/-- Membership of a peer id in a room of the registry. -/
def memberOf (rooms : List (String × List String)) (r q : String) : Prop :=
  q ∈ (alookup rooms r).getD []

instance (rooms : List (String × List String)) (r q : String) :
    Decidable (memberOf rooms r q) := by
  unfold memberOf; infer_instance

/-- peer.getInfo().  Modelled from the spec (peer.js not in src/): the
public info carries the id and rtcSupported. -/
def getInfo (p : PeerData) : PeerInfo := ⟨p.id, p.rtcSupported⟩

/-- Info of the peer object stored under pid (total lookup; in reachable
states every room member id is a stored peer). -/
def getInfoOf (st : ServerState) (pid : String) : PeerInfo :=
  match alookup st.peers pid with
  | some p => getInfo p
  | none => ⟨pid, true⟩

/-- Update the stored Peer object with the given id (embeds mutating the
shared JS object in place). -/
def updatePeer (st : ServerState) (pid : String) (f : PeerData → PeerData) :
    ServerState :=
  { st with peers := st.peers.map (fun e => if e.1 = pid then (e.1, f e.2) else e) }

/-- peer.addRoomSecret.  Modelled from the spec: roomSecrets is an
insertion-ordered sequence with duplicates forbidden. -/
def addRoomSecret (p : PeerData) (s : String) : PeerData :=
  if s ∈ p.roomSecrets then p
  else { p with roomSecrets := p.roomSecrets ++ [s] }

/-- peer.removeRoomSecret.  Modelled from the spec: removes the secret
from the sequence. -/
def removeRoomSecret (p : PeerData) (s : String) : PeerData :=
  { p with roomSecrets := p.roomSecrets.erase s }

/-- Peer.isValidUuid.  Modelled from the spec (peer.js not in src/): a
valid id is UUID-shaped, 36 ASCII characters in 8-4-4-4-12 groups of hex
digits separated by dashes. -/
def isValidUuid (s : String) : Bool :=
  let cs := s.toList
  cs.length == 36 &&
    (List.range 36).all (fun i =>
      let c := (cs.getD i ' ').toNat
      if i == 8 || i == 13 || i == 18 || i == 23 then c == 45
      else (48 ≤ c && c ≤ 57) || (97 ≤ c && c ≤ 102))

/-- The filter of the room-secrets handler, ws-server.js line 215:
the regex accepts 64 to 256 characters with code points 0-127. -/
def isSecretShaped (s : String) : Bool :=
  64 ≤ s.length && s.length ≤ 256 && s.toList.all (fun c => c.toNat ≤ 127)

/-- JS String.prototype.trim on the ASCII whitespace characters. -/
def isJsWhitespace (c : Char) : Bool :=
  c == ' ' || c == '\t' || c == '\n' || c == '\x0b' || c == '\x0c' || c == '\r'

/-- Embeds .trim() as used on the secret-room key of a binary frame. -/
def jsTrim (s : String) : String :=
  String.mk (((s.toList.dropWhile isJsWhitespace).reverse.dropWhile
    isJsWhitespace).reverse)

/-! ## Room registry primitives (ws-server.js lines 392-503 / 986-1095) -/

/-- this._leaveRoom (lines 430-456 / 1019-1043): no-op if not a member;
remove the peer; delete the room if now empty (emitting nothing), else
emit peer-left to every remaining member. -/
def leaveRoom (st : ServerState) (pid roomType roomId : String)
    (disconnect : Bool) : ServerState × Out :=
  match alookup st.rooms roomId with
  | none => (st, [])
  | some mems =>
    if pid ∈ mems then
      let mems' := mems.erase pid
      if mems' = [] then
        ({ st with rooms := aremove st.rooms roomId }, [])
      else
        ({ st with rooms := aset st.rooms roomId mems' },
          mems'.map (fun o => (o, OutMsg.peerLeft pid roomType roomId disconnect)))
    else (st, [])

/-- this._notifyPeers (lines 458-491 / 1045-1083): peer-joined to every
other occupant, then the peers snapshot to the joining peer. -/
def notifyPeers (st : ServerState) (pid roomType roomId : String) : Out :=
  match alookup st.rooms roomId with
  | none => []
  | some mems =>
    let others := mems.filter (fun o => o != pid)
    (others.map (fun o => (o, OutMsg.peerJoined (getInfoOf st pid) roomType roomId)))
      ++ [(pid, OutMsg.peersList (others.map (getInfoOf st)) roomType roomId)]

/-- The tail of this._joinRoom (lines 399-407 / 991-1001), run after the
leave-on-reconnect check: create the room if absent, notify, then insert
the peer. -/
def joinRoomInsert (st : ServerState) (pid roomType roomId : String) :
    ServerState × Out :=
  let st2 : ServerState :=
    match alookup st.rooms roomId with
    | none => { st with rooms := aset st.rooms roomId [] }
    | some _ => st
  let out2 := notifyPeers st2 pid roomType roomId
  let mems := (alookup st2.rooms roomId).getD []
  let mems2 := if pid ∈ mems then mems else mems ++ [pid]
  ({ st2 with rooms := aset st2.rooms roomId mems2 }, out2)

/-- this._joinRoom (lines 392-408 / 986-1002): leave first when already a
member, then create the room if absent, notify, and insert the peer. -/
def joinRoom (st : ServerState) (pid roomType roomId : String) :
    ServerState × Out :=
  let s1 :=
    if memberOf st.rooms roomId pid then leaveRoom st pid roomType roomId false
    else (st, [])
  let s2 := joinRoomInsert s1.1 pid roomType roomId
  (s2.1, s1.2 ++ s2.2)

/-- this._joinSecretRoom (lines 376-381 / 975-978). -/
def joinSecretRoom (st : ServerState) (pid s : String) : ServerState × Out :=
  let r := joinRoom st pid "secret" s
  (updatePeer r.1 pid (fun p => addRoomSecret p s), r.2)

/-- this._leaveSecretRoom (lines 415-420 / 1008-1011). -/
def leaveSecretRoom (st : ServerState) (pid s : String) (disconnect : Bool) :
    ServerState × Out :=
  let r := leaveRoom st pid "secret" s disconnect
  (updatePeer r.1 pid (fun p => removeRoomSecret p s), r.2)

/-- this._joinIpRoom (lines 372-374 / 971-973). -/
def joinIpRoom (st : ServerState) (pid : String) : ServerState × Out :=
  match alookup st.peers pid with
  | none => (st, [])
  | some p => joinRoom st pid "ip" p.ip

/-- this._leaveIpRoom (lines 411-413 / 1004-1006). -/
def leaveIpRoom (st : ServerState) (pid : String) (disconnect : Bool) :
    ServerState × Out :=
  match alookup st.peers pid with
  | none => (st, [])
  | some p => leaveRoom st pid "ip" p.ip disconnect

/-- this._leavePublicRoom (lines 422-428 / 1013-1017). -/
def leavePublicRoom (st : ServerState) (pid : String) (disconnect : Bool) :
    ServerState × Out :=
  match alookup st.peers pid with
  | none => (st, [])
  | some p =>
    match p.publicRoomId with
    | none => (st, [])
    | some r =>
      let l := leaveRoom st pid "public-id" r disconnect
      (updatePeer l.1 pid (fun q => { q with publicRoomId := none }), l.2)

/-- this._joinPublicRoom (lines 383-390 / 980-984). -/
def joinPublicRoom (st : ServerState) (pid rid : String) : ServerState × Out :=
  let l := leavePublicRoom st pid false
  let j := joinRoom l.1 pid "public-id" rid
  (updatePeer j.1 pid (fun q => { q with publicRoomId := some rid }), l.2 ++ j.2)

/-- this._joinSecretRooms (lines 493-497 / 1085-1089): join each secret of
the (already filtered) list in order. -/
def joinSecretRooms (st : ServerState) (pid : String) :
    List String → ServerState × Out
  | [] => (st, [])
  | s :: ss =>
    let r1 := joinSecretRoom st pid s
    let r2 := joinSecretRooms r1.1 pid ss
    (r2.1, r1.2 ++ r2.2)

/-- One step of the loop of this._leaveAllSecretRooms (lines 499-503 /
1091-1095).  The loop reads peer.roomSecrets live while each
_leaveSecretRoom call removes the current element from it, so the index i
advances over a shrinking array; fuel bounds the iteration count. -/
def leaveAllSecretRoomsAux (pid : String) (disconnect : Bool) :
    Nat → ServerState → Nat → ServerState × Out
  | 0, st, _ => (st, [])
  | fuel + 1, st, i =>
    match alookup st.peers pid with
    | none => (st, [])
    | some p =>
      if h : i < p.roomSecrets.length then
        let s := p.roomSecrets.get ⟨i, h⟩
        let r1 := leaveSecretRoom st pid s disconnect
        let r2 := leaveAllSecretRoomsAux pid disconnect fuel r1.1 (i + 1)
        (r2.1, r1.2 ++ r2.2)
      else (st, [])

/-- this._leaveAllSecretRooms (lines 499-503 / 1091-1095).  The for loop
runs at most the initial length of peer.roomSecrets times, which the fuel
covers with one spare step. -/
def leaveAllSecretRooms (st : ServerState) (pid : String) (disconnect : Bool) :
    ServerState × Out :=
  match alookup st.peers pid with
  | none => (st, [])
  | some p => leaveAllSecretRoomsAux pid disconnect (p.roomSecrets.length + 1) st 0

/-! ## Pair-key directory (ws-server.js lines 350-370 / 950-969) -/

/-- this._removePairKey (lines 365-370 / 964-969): if the key is present,
clear the creator back-link and delete the entry. -/
def removePairKey (st : ServerState) (k : String) : ServerState :=
  match alookup st.roomSecrets k with
  | none => st
  | some e =>
    let st1 := updatePeer st e.creatorId (fun q => { q with pairKey := none })
    { st1 with roomSecrets := aremove st1.roomSecrets k }

/-- _removePairKey applied to a nullable key (a null key is never in the
directory, so the call is a no-op). -/
def removePairKeyOpt (st : ServerState) : Option String → ServerState
  | none => st
  | some k => removePairKey st k

/-- this._createPairKey (lines 350-363 / 950-962) after the uniqueness
loop has produced the fresh key: store the entry.  The randomly drawn key
is passed in as a parameter. -/
def createPairKey (st : ServerState) (creatorId roomSecret pairKey : String) :
    ServerState :=
  { st with roomSecrets := aset st.roomSecrets pairKey ⟨roomSecret, creatorId⟩ }

/-! ## Message handlers (ws-server.js lines 193-348 / 780-948).
Each handler embeds the code run for one inbound frame from the peer with
id pid; the sender is always a connected peer, embedded as a lookup guard. -/

/-- this._disconnect (lines 197-209 / 784-798): remove the pair key,
clear it on the peer, drop the keep-alive record (timers are modelled
separately), leave the ip room, all secret rooms and the public room with
disconnect=true, and finally terminate the socket. -/
def disconnect (st : ServerState) (pid : String) : ServerState × Out :=
  match alookup st.peers pid with
  | none => (st, [])
  | some p =>
    let st1 := removePairKeyOpt st p.pairKey
    let st2 := updatePeer st1 pid (fun q => { q with pairKey := none })
    let r3 := leaveIpRoom st2 pid true
    let r4 := leaveAllSecretRooms r3.1 pid true
    let r5 := leavePublicRoom r4.1 pid true
    (r5.1, r3.2 ++ r4.2 ++ r5.2 ++ [(pid, OutMsg.terminated)])

/-- this._onRoomSecrets (lines 211-221 / 800-811): filter the submitted
secrets with the 64-256 ASCII regex and join each. -/
def onRoomSecrets (st : ServerState) (pid : String) (secrets : List String) :
    ServerState × Out :=
  match alookup st.peers pid with
  | none => (st, [])
  | some _ => joinSecretRooms st pid (secrets.filter isSecretShaped)

/-- The loop of this._deleteSecretRoom (lines 229-243 / 819-835) over the
snapshot of the member ids: each member leaves the secret room (with
disconnect=true) and is sent secret-room-deleted. -/
def deleteSecretRoomLoop (s : String) :
    ServerState → List String → ServerState × Out
  | st, [] => (st, [])
  | st, m :: ms =>
    let r1 := leaveSecretRoom st m s true
    let r2 := deleteSecretRoomLoop s r1.1 ms
    (r2.1, r1.2 ++ [(m, OutMsg.secretRoomDeleted s)] ++ r2.2)

/-- this._deleteSecretRoom (lines 229-243 / 819-835). -/
def deleteSecretRoom (st : ServerState) (s : String) : ServerState × Out :=
  match alookup st.rooms s with
  | none => (st, [])
  | some mems => deleteSecretRoomLoop s st mems

/-- this._onRoomSecretsDeleted (lines 223-227 / 813-817). -/
def onRoomSecretsDeleted (st : ServerState) (pid : String) :
    List String → ServerState × Out
  | [] => (st, [])
  | s :: ss =>
    let r1 := deleteSecretRoom st s
    let r2 := onRoomSecretsDeleted r1.1 pid ss
    (r2.1, r1.2 ++ r2.2)

/-- this._onPairDeviceInitiate (lines 245-260 / 837-854).  The random
256-char room secret and the fresh pair key are passed as parameters. -/
def onPairDeviceInitiate (st : ServerState) (pid roomSecret pairKey : String) :
    ServerState × Out :=
  match alookup st.peers pid with
  | none => (st, [])
  | some p =>
    let st1 := createPairKey st pid roomSecret pairKey
    let st2 := removePairKeyOpt st1 p.pairKey
    let st3 := updatePeer st2 pid (fun q => { q with pairKey := some pairKey })
    let r4 := joinSecretRoom st3 pid roomSecret
    (r4.1, (pid, OutMsg.pairDeviceInitiated roomSecret pairKey) :: r4.2)

/-- this._onPairDeviceJoin (lines 262-288 / 856-886): rate-limit check;
reject an unknown key or a self-join; otherwise remove the key, send
pair-device-joined to both sides, join the sender to the secret room,
and finally drop any pair key the sender itself had created. -/
def onPairDeviceJoin (st : ServerState) (pid pairKey : String) :
    ServerState × Out :=
  match alookup st.peers pid with
  | none => (st, [])
  | some p =>
    if p.rateLimited then (st, [(pid, OutMsg.joinKeyRateLimit)])
    else
      match alookup st.roomSecrets pairKey with
      | none => (st, [(pid, OutMsg.pairDeviceJoinKeyInvalid)])
      | some e =>
        if pid = e.creatorId then (st, [(pid, OutMsg.pairDeviceJoinKeyInvalid)])
        else
          let st1 := removePairKey st pairKey
          let out1 : Out :=
            [(pid, OutMsg.pairDeviceJoined e.roomSecret e.creatorId),
             (e.creatorId, OutMsg.pairDeviceJoined e.roomSecret pid)]
          let r2 := joinSecretRoom st1 pid e.roomSecret
          let st3 :=
            match alookup r2.1.peers pid with
            | none => r2.1
            | some p2 => removePairKeyOpt r2.1 p2.pairKey
          (st3, out1 ++ r2.2)

/-- this._onPairDeviceCancel (lines 290-300 / 888-898). -/
def onPairDeviceCancel (st : ServerState) (pid : String) : ServerState × Out :=
  match alookup st.peers pid with
  | none => (st, [])
  | some p =>
    match p.pairKey with
    | none => (st, [])
    | some k => (removePairKey st k, [(pid, OutMsg.pairDeviceCanceled k)])

/-- The loop of this._onRegenerateRoomSecret (lines 333-348 / 934-948)
over the snapshot of occupant ids: notify each occupant and remove the
old secret from its roomSecrets. -/
def regenerateLoop (oldS newS : String) :
    ServerState → List String → ServerState × Out
  | st, [] => (st, [])
  | st, m :: ms =>
    let st1 := updatePeer st m (fun q => removeRoomSecret q oldS)
    let r2 := regenerateLoop oldS newS st1 ms
    (r2.1, (m, OutMsg.roomSecretRegenerated oldS newS) :: r2.2)

/-- this._onRegenerateRoomSecret (lines 333-348 / 934-948).  The freshly
drawn secret is a parameter; the old room entry is deleted wholesale. -/
def onRegenerateRoomSecret (st : ServerState) (pid oldS newS : String) :
    ServerState × Out :=
  match alookup st.peers pid with
  | none => (st, [])
  | some _ =>
    let mems := (alookup st.rooms oldS).getD []
    let r := regenerateLoop oldS newS st mems
    ({ r.1 with rooms := aremove r.1.rooms oldS }, r.2)

/-- this._onCreatePublicRoom (lines 302-311 / 900-911); the random 5-char
id is a parameter. -/
def onCreatePublicRoom (st : ServerState) (pid roomId : String) :
    ServerState × Out :=
  match alookup st.peers pid with
  | none => (st, [])
  | some _ =>
    let r := joinPublicRoom st pid roomId
    (r.1, (pid, OutMsg.publicRoomCreated roomId) :: r.2)

/-- this._onJoinPublicRoom (lines 313-326 / 913-927). -/
def onJoinPublicRoom (st : ServerState) (pid publicRoomId : String)
    (createIfInvalid : Bool) : ServerState × Out :=
  match alookup st.peers pid with
  | none => (st, [])
  | some p =>
    if p.rateLimited then (st, [(pid, OutMsg.joinKeyRateLimit)])
    else if (alookup st.rooms publicRoomId).isNone && !createIfInvalid then
      (st, [(pid, OutMsg.publicRoomIdInvalid publicRoomId)])
    else
      let l := leavePublicRoom st pid false
      let j := joinPublicRoom l.1 pid publicRoomId
      (j.1, l.2 ++ j.2)

/-- this._onLeavePublicRoom (lines 328-331 / 929-932). -/
def onLeavePublicRoom (st : ServerState) (pid : String) : ServerState × Out :=
  match alookup st.peers pid with
  | none => (st, [])
  | some _ =>
    let l := leavePublicRoom st pid true
    (l.1, l.2 ++ [(pid, OutMsg.publicRoomLeft)])

/-! ## Relay engine -/

/-- The room resolution of this._signalAndRelay (lines 176-178 /
758-760): roomType "ip" resolves to the sender ip, anything else to the
roomId field of the message (which may be absent). -/
def resolvedRoom (sender : PeerData) (m : Msg) : Option String :=
  if m.roomType = some "ip" then some sender.ip else m.roomId

/-- this._signalAndRelay (lines 175-191 / 757-778).  Both copies send the
same frames: the first deletes the to field before the undefined-recipient
check inside _send, the second returns early when the recipient is
missing; either way nothing is emitted unless the recipient exists in the
resolved room.  On success the message is forwarded with to removed and a
sender tag {id, rtcSupported} added; no other field is touched. -/
def signalAndRelay (st : ServerState) (pid : String) (m : Msg) : Out :=
  match alookup st.peers pid with
  | none => []
  | some sender =>
    match m.toId with
    | none => []
    | some t =>
      if t ≠ "" ∧ isValidUuid t then
        match resolvedRoom sender m with
        | none => []
        | some r =>
          match alookup st.rooms r with
          | none => []
          | some mems =>
            if t ∈ mems then
              [(t, OutMsg.relayed
                { m with toId := none, sender := some (getInfo sender) })]
            else []
      else []

/-- The room resolution of this._relayBinaryMessage (lines 162-164 /
745-747): marker byte "i" selects the sender ip, anything else the
trimmed secret key in bytes 37-101. -/
def binResolvedRoom (sender : PeerData) (data : List Char) : String :=
  if (data.drop 36).take 1 = ['i'] then sender.ip
  else jsTrim (String.mk ((data.drop 37).take 64))

/-- this._relayBinaryMessage (lines 157-173 / 741-755): drop everything
when wsFallback is off; otherwise read the recipient id from bytes 0-36,
resolve the room from the marker byte, and forward bytes 101-end as a
binary frame when the recipient exists in the room with an open socket. -/
def relayBinaryMessage (wsFallback : Bool) (st : ServerState) (pid : String)
    (data : List Char) : Out :=
  if !wsFallback then []
  else
    match alookup st.peers pid with
    | none => []
    | some sender =>
      let recipientId := String.mk (data.take 36)
      let room := binResolvedRoom sender data
      if isValidUuid recipientId then
        match alookup st.rooms room with
        | none => []
        | some mems =>
          if recipientId ∈ mems then
            match alookup st.peers recipientId with
            | none => []
            | some rc =>
              if rc.readyState = 1 then
                [(recipientId, OutMsg.binary (data.drop 101))]
              else []
          else []
      else []

/-! ## Keep-alive supervisor (ws-server.js lines 513-546 / 1113-1145) -/

/-- The tick period of _keepAlive, line 516 / 1115. -/
def keepAlivePeriod : Nat := 2000

/-- The disconnect decision of one tick of the first copy of _keepAlive,
line 526: elapsed wall time since lastBeat strictly above 2 * timeout. -/
def keepAliveCheck1 (now lastBeat : Nat) : Bool :=
  decide (now - lastBeat > 2 * keepAlivePeriod)

/-- The disconnect decision of one tick of the second copy of _keepAlive,
line 1124: elapsed wall time since lastBeat strictly above 3 * timeout. -/
def keepAliveCheck2 (now lastBeat : Nat) : Bool :=
  decide (now - lastBeat > 3 * keepAlivePeriod)

/-- this._setKeepAliveTimerToNow (lines 542-546 / 1141-1145): a pong sets
lastBeat of the keep-alive record to the current wall time. -/
def setKeepAliveTimerToNow (rec : Nat × Nat) (now : Nat) : Nat × Nat :=
  (rec.1, now)

/-! ## Dispatcher-level events (ws-server.js _onMessage, lines 78-154 /
654-739, plus connection accept).  Randomly drawn strings appear as event
parameters; a connect of an id already in use is out of scope and is
modelled as a no-op. -/

/-- One inbound event: a connection accept or one handled frame. -/
inductive Event where
  | connect (p : PeerData)
  | msgDisconnect (pid : String)
  | pong (pid : String)
  | joinIp (pid : String)
  | roomSecretsMsg (pid : String) (secrets : List String)
  | roomSecretsDeletedMsg (pid : String) (secrets : List String)
  | pairDeviceInitiate (pid roomSecret pairKey : String)
  | pairDeviceJoin (pid pairKey : String)
  | pairDeviceCancel (pid : String)
  | regenerateRoomSecret (pid oldSecret newSecret : String)
  | createPublicRoom (pid roomId : String)
  | joinPublicRoom (pid publicRoomId : String) (createIfInvalid : Bool)
  | leavePublicRoomMsg (pid : String)
  | signal (pid : String) (m : Msg)
  | binaryFrame (pid : String) (data : List Char)
deriving DecidableEq

/-- Dispatch one event to its handler (the switch of _onMessage plus the
connection handler; _onConnection itself touches no room state).  pong
only updates the keep-alive table, which is modelled separately. -/
def step (wsFallback : Bool) (st : ServerState) : Event → ServerState × Out
  | Event.connect p =>
    match alookup st.peers p.id with
    | some _ => (st, [])
    | none => ({ st with peers := aset st.peers p.id p }, [])
  | Event.msgDisconnect pid => disconnect st pid
  | Event.pong _ => (st, [])
  | Event.joinIp pid => joinIpRoom st pid
  | Event.roomSecretsMsg pid ss => onRoomSecrets st pid ss
  | Event.roomSecretsDeletedMsg pid ss => onRoomSecretsDeleted st pid ss
  | Event.pairDeviceInitiate pid rs k => onPairDeviceInitiate st pid rs k
  | Event.pairDeviceJoin pid k => onPairDeviceJoin st pid k
  | Event.pairDeviceCancel pid => onPairDeviceCancel st pid
  | Event.regenerateRoomSecret pid oldS newS =>
      onRegenerateRoomSecret st pid oldS newS
  | Event.createPublicRoom pid rid => onCreatePublicRoom st pid rid
  | Event.joinPublicRoom pid rid ci => onJoinPublicRoom st pid rid ci
  | Event.leavePublicRoomMsg pid => onLeavePublicRoom st pid
  | Event.signal pid m => (st, signalAndRelay st pid m)
  | Event.binaryFrame pid data => (st, relayBinaryMessage wsFallback st pid data)

/-- Run a sequence of events from a state, keeping only the state. -/
def runState (wsFallback : Bool) : ServerState → List Event → ServerState
  | st, [] => st
  | st, e :: es => runState wsFallback (step wsFallback st e).1 es

/-! ## Association-list lemmas -/

theorem alookup_aset {α : Type} (l : List (String × α)) (k q : String) (v : α) :
    alookup (aset l k v) q = if k = q then some v else alookup l q := by
  induction l with
  | nil => by_cases h : k = q <;> simp [aset, alookup, h]
  | cons e t ih =>
    obtain ⟨k0, v0⟩ := e
    by_cases h0 : k0 = k
    · subst h0
      by_cases hq : k0 = q <;> simp [aset, alookup, hq]
    · by_cases hq : k0 = q
      · subst hq
        have hk : ¬k = k0 := fun h => h0 h.symm
        simp [aset, alookup, h0, hk]
      · simp [aset, alookup, h0, hq, ih]

theorem alookup_aremove {α : Type} (l : List (String × α)) (k q : String) :
    alookup (aremove l k) q = if k = q then none else alookup l q := by
  induction l with
  | nil => by_cases h : k = q <;> simp [aremove, alookup, h]
  | cons e t ih =>
    obtain ⟨k0, v0⟩ := e
    by_cases h0 : k0 = k
    · subst h0
      by_cases hq : k0 = q
      · subst hq; simp [aremove, alookup, ih]
      · simp [aremove, alookup, hq, ih]
    · by_cases hq : k0 = q
      · subst hq
        have hk : ¬k = k0 := fun h => h0 h.symm
        simp [aremove, alookup, h0, hk]
      · simp [aremove, alookup, h0, hq, ih]

theorem alookup_map_snd {α : Type} (l : List (String × α)) (g : String → α → α)
    (q : String) :
    alookup (l.map (fun e => (e.1, g e.1 e.2))) q = (alookup l q).map (g q) := by
  induction l with
  | nil => simp [alookup]
  | cons e t ih =>
    obtain ⟨k0, v0⟩ := e
    by_cases h : k0 = q
    · subst h; simp [alookup]
    · simp [alookup, h, ih]

theorem alookup_updatePeer (st : ServerState) (pid q : String)
    (f : PeerData → PeerData) :
    alookup (updatePeer st pid f).peers q =
      if pid = q then (alookup st.peers q).map f else alookup st.peers q := by
  show alookup (st.peers.map _) q = _
  have hmap : st.peers.map (fun e => if e.1 = pid then (e.1, f e.2) else e) =
      st.peers.map (fun e => (e.1, if e.1 = pid then f e.2 else e.2)) := by
    apply List.map_congr_left
    intro e _
    by_cases h : e.1 = pid <;> simp [h]
  rw [hmap, alookup_map_snd st.peers (fun k v => if k = pid then f v else v) q]
  by_cases h : pid = q
  · subst h
    cases alookup st.peers pid <;> simp
  · have h2 : ¬q = pid := fun hh => h hh.symm
    cases alookup st.peers q <;> simp [h, h2]

theorem updatePeer_rooms (st : ServerState) (pid : String)
    (f : PeerData → PeerData) : (updatePeer st pid f).rooms = st.rooms := rfl

theorem updatePeer_dir (st : ServerState) (pid : String)
    (f : PeerData → PeerData) :
    (updatePeer st pid f).roomSecrets = st.roomSecrets := rfl

/-! ## Membership lemmas for the registry primitives -/

theorem memberOf_def (rooms : List (String × List String)) (r q : String) :
    memberOf rooms r q ↔ ∃ mems, alookup rooms r = some mems ∧ q ∈ mems := by
  unfold memberOf
  cases h : alookup rooms r <;> simp [h]

theorem memberOf_aset (rooms : List (String × List String))
    (rid : String) (ms : List String) (r q : String) :
    memberOf (aset rooms rid ms) r q ↔
      (if r = rid then q ∈ ms else memberOf rooms r q) := by
  unfold memberOf
  rw [alookup_aset]
  by_cases h : r = rid
  · simp [h]
  · have h2 : ¬rid = r := fun hh => h hh.symm
    simp [h, h2]

theorem memberOf_aremove (rooms : List (String × List String))
    (rid : String) (r q : String) :
    memberOf (aremove rooms rid) r q ↔ (r ≠ rid ∧ memberOf rooms r q) := by
  unfold memberOf
  rw [alookup_aremove]
  by_cases h : r = rid
  · simp [h]
  · have h2 : ¬rid = r := fun hh => h hh.symm
    simp [h, h2]

/-- Erasing the sole remaining element: a list whose erase is empty and
which contains the erased element is that singleton. -/
theorem eq_singleton_of_erase_nil (l : List String) (x : String)
    (hx : x ∈ l) (h : l.erase x = []) : l = [x] := by
  cases l with
  | nil => cases hx
  | cons a t =>
    by_cases hax : a = x
    · subst hax
      simp [List.erase_cons_head] at h
      simp [h]
    · rw [List.erase_cons_tail] at h
      · cases h
      · simp [hax]

/-- Rooms-side invariant: every stored member list has no duplicates. -/
def roomsNodup (rooms : List (String × List String)) : Prop :=
  ∀ r mems, alookup rooms r = some mems → mems.Nodup

/-- Rooms-side invariant: every stored member list is nonempty. -/
def roomsNonempty (rooms : List (String × List String)) : Prop :=
  ∀ r mems, alookup rooms r = some mems → mems ≠ []

theorem not_memberOf_of_none {rooms : List (String × List String)} {r q : String}
    (h : alookup rooms r = none) : ¬memberOf rooms r q := by
  unfold memberOf
  rw [h]
  simp

theorem memberOf_iff_of_some {rooms : List (String × List String)}
    {r q : String} {mems : List String} (h : alookup rooms r = some mems) :
    memberOf rooms r q ↔ q ∈ mems := by
  unfold memberOf
  rw [h]
  rfl

theorem leaveRoom_peers (st : ServerState) (pid rt rid : String) (d : Bool) :
    (leaveRoom st pid rt rid d).1.peers = st.peers := by
  unfold leaveRoom
  cases h : alookup st.rooms rid with
  | none => rfl
  | some mems =>
    by_cases hm : pid ∈ mems
    · by_cases he : mems.erase pid = [] <;> simp [hm, he]
    · simp [hm]

theorem leaveRoom_dir (st : ServerState) (pid rt rid : String) (d : Bool) :
    (leaveRoom st pid rt rid d).1.roomSecrets = st.roomSecrets := by
  unfold leaveRoom
  cases h : alookup st.rooms rid with
  | none => rfl
  | some mems =>
    by_cases hm : pid ∈ mems
    · by_cases he : mems.erase pid = [] <;> simp [hm, he]
    · simp [hm]

theorem memberOf_leaveRoom (st : ServerState) (pid rt rid : String) (d : Bool)
    (hnd : roomsNodup st.rooms) (r q : String) :
    memberOf (leaveRoom st pid rt rid d).1.rooms r q ↔
      (memberOf st.rooms r q ∧ ¬(r = rid ∧ q = pid)) := by
  cases h : alookup st.rooms rid with
  | none =>
    have hst : (leaveRoom st pid rt rid d).1 = st := by simp [leaveRoom, h]
    rw [hst]
    constructor
    · intro hq
      refine ⟨hq, ?_⟩
      rintro ⟨rfl, rfl⟩
      exact not_memberOf_of_none h hq
    · exact fun hq => hq.1
  | some mems =>
    by_cases hm : pid ∈ mems
    · by_cases he : mems.erase pid = []
      · have hsing : mems = [pid] := eq_singleton_of_erase_nil mems pid hm he
        have hst : (leaveRoom st pid rt rid d).1 =
            { st with rooms := aremove st.rooms rid } := by
          simp [leaveRoom, h, hm, he]
        rw [hst]
        have : memberOf { st with rooms := aremove st.rooms rid }.rooms r q ↔
            (r ≠ rid ∧ memberOf st.rooms r q) := memberOf_aremove _ _ _ _
        rw [this]
        by_cases hr : r = rid
        · subst hr
          rw [memberOf_iff_of_some h, hsing]
          simp
        · simp [hr]
      · have hst : (leaveRoom st pid rt rid d).1 =
            { st with rooms := aset st.rooms rid (mems.erase pid) } := by
          simp [leaveRoom, h, hm, he]
        rw [hst]
        have : memberOf { st with rooms := aset st.rooms rid (mems.erase pid) }.rooms
            r q ↔ (if r = rid then q ∈ mems.erase pid else memberOf st.rooms r q) :=
          memberOf_aset _ _ _ _ _
        rw [this]
        by_cases hr : r = rid
        · subst hr
          rw [if_pos rfl, (hnd _ _ h).mem_erase_iff, memberOf_iff_of_some h]
          constructor
          · rintro ⟨hne, hq⟩
            exact ⟨hq, by simp [hne]⟩
          · rintro ⟨hq, hne⟩
            exact ⟨by simpa using hne, hq⟩
        · simp [hr]
    · have hst : (leaveRoom st pid rt rid d).1 = st := by simp [leaveRoom, h, hm]
      rw [hst]
      constructor
      · intro hq
        refine ⟨hq, ?_⟩
        rintro ⟨rfl, rfl⟩
        exact hm ((memberOf_iff_of_some h).mp hq)
      · exact fun hq => hq.1

theorem joinRoomInsert_peers (st : ServerState) (pid rt rid : String) :
    (joinRoomInsert st pid rt rid).1.peers = st.peers := by
  unfold joinRoomInsert
  cases h : alookup st.rooms rid <;> simp [h]

theorem joinRoomInsert_dir (st : ServerState) (pid rt rid : String) :
    (joinRoomInsert st pid rt rid).1.roomSecrets = st.roomSecrets := by
  unfold joinRoomInsert
  cases h : alookup st.rooms rid <;> simp [h]

theorem joinRoom_peers (st : ServerState) (pid rt rid : String) :
    (joinRoom st pid rt rid).1.peers = st.peers := by
  unfold joinRoom
  by_cases hm : memberOf st.rooms rid pid <;>
    simp [hm, joinRoomInsert_peers, leaveRoom_peers]

theorem joinRoom_dir (st : ServerState) (pid rt rid : String) :
    (joinRoom st pid rt rid).1.roomSecrets = st.roomSecrets := by
  unfold joinRoom
  by_cases hm : memberOf st.rooms rid pid <;>
    simp [hm, joinRoomInsert_dir, leaveRoom_dir]

/-- Insert-phase membership: provided the peer is not a member (the
leave-phase guarantees this), the insert adds exactly that membership. -/
theorem memberOf_joinRoomInsert (st : ServerState) (pid rt rid : String)
    (hpid : ¬memberOf st.rooms rid pid) (r q : String) :
    memberOf (joinRoomInsert st pid rt rid).1.rooms r q ↔
      ((r = rid ∧ q = pid) ∨ memberOf st.rooms r q) := by
  cases h : alookup st.rooms rid with
  | none =>
    have hst : (joinRoomInsert st pid rt rid).1.rooms =
        aset (aset st.rooms rid []) rid [pid] := by
      simp [joinRoomInsert, h, alookup_aset]
    rw [hst, memberOf_aset]
    by_cases hr : r = rid
    · subst hr
      simp [not_memberOf_of_none h]
    · rw [if_neg hr, memberOf_aset, if_neg hr]
      simp [hr]
  | some mems =>
    have hpm : pid ∉ mems := fun hc => hpid ((memberOf_iff_of_some h).mpr hc)
    have hst : (joinRoomInsert st pid rt rid).1.rooms =
        aset st.rooms rid (mems ++ [pid]) := by
      simp [joinRoomInsert, h, hpm]
    rw [hst, memberOf_aset]
    by_cases hr : r = rid
    · subst hr
      rw [if_pos rfl, memberOf_iff_of_some h]
      simp [List.mem_append]
      tauto
    · simp [hr]

/-- Membership after _joinRoom: exactly the old membership plus the
joining peer in the target room. -/
theorem memberOf_joinRoom (st : ServerState) (pid rt rid : String)
    (hnd : roomsNodup st.rooms) (r q : String) :
    memberOf (joinRoom st pid rt rid).1.rooms r q ↔
      ((r = rid ∧ q = pid) ∨ memberOf st.rooms r q) := by
  unfold joinRoom
  by_cases hm : memberOf st.rooms rid pid
  · simp only [hm, if_pos]
    rw [memberOf_joinRoomInsert _ _ rt _ (by
      rw [memberOf_leaveRoom st pid rt rid false hnd]
      simp)]
    rw [memberOf_leaveRoom st pid rt rid false hnd]
    constructor
    · rintro (⟨rfl, rfl⟩ | ⟨hq, _⟩)
      · exact Or.inl ⟨rfl, rfl⟩
      · exact Or.inr hq
    · rintro (⟨rfl, rfl⟩ | hq)
      · exact Or.inl ⟨rfl, rfl⟩
      · by_cases hc : r = rid ∧ q = pid
        · exact Or.inl hc
        · exact Or.inr ⟨hq, hc⟩
  · simp only [hm, if_neg, not_false_iff]
    exact memberOf_joinRoomInsert st pid rt rid hm r q

/-! ## Registry well-formedness: stored member lists are nonempty and
duplicate-free, preserved by every handler. -/

/-- Well-formed registry: every room entry is a nonempty duplicate-free
member list. -/
def RoomsOK (rooms : List (String × List String)) : Prop :=
  roomsNonempty rooms ∧ roomsNodup rooms

theorem RoomsOK_aremove (rooms : List (String × List String)) (rid : String)
    (h : RoomsOK rooms) : RoomsOK (aremove rooms rid) := by
  constructor
  · intro r mems hm
    rw [alookup_aremove] at hm
    by_cases hr : rid = r
    · rw [if_pos hr] at hm; cases hm
    · rw [if_neg hr] at hm; exact h.1 r mems hm
  · intro r mems hm
    rw [alookup_aremove] at hm
    by_cases hr : rid = r
    · rw [if_pos hr] at hm; cases hm
    · rw [if_neg hr] at hm; exact h.2 r mems hm

theorem RoomsOK_aset (rooms : List (String × List String)) (rid : String)
    (ms : List String) (h : RoomsOK rooms) (hne : ms ≠ []) (hnd : ms.Nodup) :
    RoomsOK (aset rooms rid ms) := by
  constructor
  · intro r mems hm
    rw [alookup_aset] at hm
    by_cases hr : rid = r
    · rw [if_pos hr] at hm; cases hm; exact hne
    · rw [if_neg hr] at hm; exact h.1 r mems hm
  · intro r mems hm
    rw [alookup_aset] at hm
    by_cases hr : rid = r
    · rw [if_pos hr] at hm; cases hm; exact hnd
    · rw [if_neg hr] at hm; exact h.2 r mems hm

theorem RoomsOK_leaveRoom (st : ServerState) (pid rt rid : String) (d : Bool)
    (h : RoomsOK st.rooms) : RoomsOK (leaveRoom st pid rt rid d).1.rooms := by
  unfold leaveRoom
  cases hm : alookup st.rooms rid with
  | none => exact h
  | some mems =>
    by_cases hp : pid ∈ mems
    · by_cases he : mems.erase pid = []
      · simpa [hp, he] using RoomsOK_aremove st.rooms rid h
      · simpa [hp, he] using
          RoomsOK_aset st.rooms rid (mems.erase pid) h he ((h.2 rid mems hm).erase pid)
    · simpa [hp] using h

theorem RoomsOK_joinRoomInsert (st : ServerState) (pid rt rid : String)
    (h : RoomsOK st.rooms) : RoomsOK (joinRoomInsert st pid rt rid).1.rooms := by
  unfold joinRoomInsert
  cases hm : alookup st.rooms rid with
  | none =>
    have hres : RoomsOK (aset (aset st.rooms rid []) rid [pid]) := by
      constructor
      · intro r mems hmm
        rw [alookup_aset] at hmm
        by_cases hr : rid = r
        · rw [if_pos hr] at hmm; cases hmm; simp
        · rw [if_neg hr, alookup_aset, if_neg hr] at hmm
          exact h.1 r mems hmm
      · intro r mems hmm
        rw [alookup_aset] at hmm
        by_cases hr : rid = r
        · rw [if_pos hr] at hmm; cases hmm; simp
        · rw [if_neg hr, alookup_aset, if_neg hr] at hmm
          exact h.2 r mems hmm
    simpa [hm, alookup_aset] using hres
  | some mems =>
    by_cases hp : pid ∈ mems
    · simpa [hm, hp] using
        RoomsOK_aset st.rooms rid mems h (h.1 rid mems hm) (h.2 rid mems hm)
    · have hne : mems ++ [pid] ≠ [] := by simp
      have hnd : (mems ++ [pid]).Nodup := by
        rw [List.nodup_append]
        exact ⟨h.2 rid mems hm, List.nodup_singleton pid,
          by simpa [List.disjoint_singleton] using hp⟩
      simpa [hm, hp] using RoomsOK_aset st.rooms rid (mems ++ [pid]) h hne hnd

theorem RoomsOK_joinRoom (st : ServerState) (pid rt rid : String)
    (h : RoomsOK st.rooms) : RoomsOK (joinRoom st pid rt rid).1.rooms := by
  unfold joinRoom
  by_cases hm : memberOf st.rooms rid pid
  · simpa [hm] using
      RoomsOK_joinRoomInsert (leaveRoom st pid rt rid false).1 pid rt rid
        (RoomsOK_leaveRoom st pid rt rid false h)
  · simpa [hm] using RoomsOK_joinRoomInsert st pid rt rid h

theorem joinSecretRoom_rooms (st : ServerState) (pid s : String) :
    (joinSecretRoom st pid s).1.rooms = (joinRoom st pid "secret" s).1.rooms := rfl

theorem leaveSecretRoom_rooms (st : ServerState) (pid s : String) (d : Bool) :
    (leaveSecretRoom st pid s d).1.rooms = (leaveRoom st pid "secret" s d).1.rooms :=
  rfl

theorem RoomsOK_joinSecretRoom (st : ServerState) (pid s : String)
    (h : RoomsOK st.rooms) : RoomsOK (joinSecretRoom st pid s).1.rooms := by
  rw [joinSecretRoom_rooms]
  exact RoomsOK_joinRoom st pid "secret" s h

theorem RoomsOK_leaveSecretRoom (st : ServerState) (pid s : String) (d : Bool)
    (h : RoomsOK st.rooms) : RoomsOK (leaveSecretRoom st pid s d).1.rooms := by
  rw [leaveSecretRoom_rooms]
  exact RoomsOK_leaveRoom st pid "secret" s d h

theorem RoomsOK_joinIpRoom (st : ServerState) (pid : String)
    (h : RoomsOK st.rooms) : RoomsOK (joinIpRoom st pid).1.rooms := by
  unfold joinIpRoom
  cases hp : alookup st.peers pid with
  | none => exact h
  | some p => exact RoomsOK_joinRoom st pid "ip" p.ip h

theorem RoomsOK_leaveIpRoom (st : ServerState) (pid : String) (d : Bool)
    (h : RoomsOK st.rooms) : RoomsOK (leaveIpRoom st pid d).1.rooms := by
  unfold leaveIpRoom
  cases hp : alookup st.peers pid with
  | none => exact h
  | some p => exact RoomsOK_leaveRoom st pid "ip" p.ip d h

theorem RoomsOK_leavePublicRoom (st : ServerState) (pid : String) (d : Bool)
    (h : RoomsOK st.rooms) : RoomsOK (leavePublicRoom st pid d).1.rooms := by
  cases hp : alookup st.peers pid with
  | none => simp only [leavePublicRoom, hp]; exact h
  | some p =>
    cases hr : p.publicRoomId with
    | none => simp only [leavePublicRoom, hp, hr]; exact h
    | some r =>
      simp only [leavePublicRoom, hp, hr]
      show RoomsOK (updatePeer (leaveRoom st pid "public-id" r d).1 pid _).rooms
      rw [updatePeer_rooms]
      exact RoomsOK_leaveRoom st pid "public-id" r d h

theorem RoomsOK_joinPublicRoom (st : ServerState) (pid rid : String)
    (h : RoomsOK st.rooms) : RoomsOK (joinPublicRoom st pid rid).1.rooms := by
  unfold joinPublicRoom
  exact RoomsOK_joinRoom _ pid "public-id" rid
    (RoomsOK_leavePublicRoom st pid false h)

theorem RoomsOK_joinSecretRooms (st : ServerState) (pid : String)
    (ss : List String) (h : RoomsOK st.rooms) :
    RoomsOK (joinSecretRooms st pid ss).1.rooms := by
  induction ss generalizing st with
  | nil => exact h
  | cons s t ih =>
    exact ih (joinSecretRoom st pid s).1 (RoomsOK_joinSecretRoom st pid s h)

theorem RoomsOK_leaveAllSecretRoomsAux (pid : String) (d : Bool) (fuel : Nat) :
    ∀ (st : ServerState) (i : Nat), RoomsOK st.rooms →
      RoomsOK (leaveAllSecretRoomsAux pid d fuel st i).1.rooms := by
  induction fuel with
  | zero => intro st i h; exact h
  | succ n ih =>
    intro st i h
    unfold leaveAllSecretRoomsAux
    cases hp : alookup st.peers pid with
    | none => exact h
    | some p =>
      by_cases hi : i < p.roomSecrets.length
      · simp only [hp, hi, dif_pos]
        exact ih _ _ (RoomsOK_leaveSecretRoom st pid _ d h)
      · simp only [hp, hi, dif_neg, not_false_iff]
        exact h

theorem RoomsOK_leaveAllSecretRooms (st : ServerState) (pid : String) (d : Bool)
    (h : RoomsOK st.rooms) : RoomsOK (leaveAllSecretRooms st pid d).1.rooms := by
  unfold leaveAllSecretRooms
  cases hp : alookup st.peers pid with
  | none => exact h
  | some p => exact RoomsOK_leaveAllSecretRoomsAux pid d _ st 0 h

theorem removePairKey_rooms (st : ServerState) (k : String) :
    (removePairKey st k).rooms = st.rooms := by
  unfold removePairKey
  cases h : alookup st.roomSecrets k <;> rfl

theorem removePairKeyOpt_rooms (st : ServerState) (k : Option String) :
    (removePairKeyOpt st k).rooms = st.rooms := by
  cases k with
  | none => rfl
  | some k0 => exact removePairKey_rooms st k0

theorem RoomsOK_disconnect (st : ServerState) (pid : String)
    (h : RoomsOK st.rooms) : RoomsOK (disconnect st pid).1.rooms := by
  unfold disconnect
  cases hp : alookup st.peers pid with
  | none => exact h
  | some p =>
    apply RoomsOK_leavePublicRoom
    apply RoomsOK_leaveAllSecretRooms
    apply RoomsOK_leaveIpRoom
    show RoomsOK (updatePeer (removePairKeyOpt st p.pairKey) pid _).rooms
    rw [updatePeer_rooms, removePairKeyOpt_rooms]
    exact h

theorem RoomsOK_deleteSecretRoomLoop (s : String) (ms : List String) :
    ∀ (st : ServerState), RoomsOK st.rooms →
      RoomsOK (deleteSecretRoomLoop s st ms).1.rooms := by
  induction ms with
  | nil => intro st h; exact h
  | cons m t ih =>
    intro st h
    exact ih _ (RoomsOK_leaveSecretRoom st m s true h)

theorem RoomsOK_deleteSecretRoom (st : ServerState) (s : String)
    (h : RoomsOK st.rooms) : RoomsOK (deleteSecretRoom st s).1.rooms := by
  unfold deleteSecretRoom
  cases hm : alookup st.rooms s with
  | none => exact h
  | some mems => exact RoomsOK_deleteSecretRoomLoop s mems st h

theorem RoomsOK_onRoomSecretsDeleted (st : ServerState) (pid : String)
    (ss : List String) (h : RoomsOK st.rooms) :
    RoomsOK (onRoomSecretsDeleted st pid ss).1.rooms := by
  induction ss generalizing st with
  | nil => exact h
  | cons s t ih => exact ih _ (RoomsOK_deleteSecretRoom st s h)

theorem regenerateLoop_rooms (oldS newS : String) (ms : List String) :
    ∀ (st : ServerState), (regenerateLoop oldS newS st ms).1.rooms = st.rooms := by
  induction ms with
  | nil => intro st; rfl
  | cons m t ih =>
    intro st
    unfold regenerateLoop
    rw [ih]
    exact updatePeer_rooms st m _

theorem RoomsOK_step (wsFallback : Bool) (st : ServerState) (e : Event)
    (h : RoomsOK st.rooms) : RoomsOK (step wsFallback st e).1.rooms := by
  cases e with
  | connect p =>
    show RoomsOK (match alookup st.peers p.id with
      | some _ => (st, ([] : Out))
      | none => ({ st with peers := aset st.peers p.id p }, ([] : Out))).1.rooms
    cases hp : alookup st.peers p.id with
    | none => exact h
    | some _ => exact h
  | msgDisconnect pid => exact RoomsOK_disconnect st pid h
  | pong pid => exact h
  | joinIp pid => exact RoomsOK_joinIpRoom st pid h
  | roomSecretsMsg pid ss =>
    show RoomsOK (onRoomSecrets st pid ss).1.rooms
    unfold onRoomSecrets
    cases hp : alookup st.peers pid with
    | none => exact h
    | some _ => exact RoomsOK_joinSecretRooms st pid _ h
  | roomSecretsDeletedMsg pid ss => exact RoomsOK_onRoomSecretsDeleted st pid ss h
  | pairDeviceInitiate pid rs k =>
    show RoomsOK (onPairDeviceInitiate st pid rs k).1.rooms
    unfold onPairDeviceInitiate
    cases hp : alookup st.peers pid with
    | none => exact h
    | some p =>
      apply RoomsOK_joinSecretRoom
      show RoomsOK (updatePeer (removePairKeyOpt (createPairKey st pid rs k) p.pairKey)
        pid _).rooms
      rw [updatePeer_rooms, removePairKeyOpt_rooms]
      exact h
  | pairDeviceJoin pid k =>
    show RoomsOK (onPairDeviceJoin st pid k).1.rooms
    unfold onPairDeviceJoin
    cases hp : alookup st.peers pid with
    | none => exact h
    | some p =>
      by_cases hrl : p.rateLimited
      · simpa [hrl] using h
      · simp only [hrl, if_neg, not_false_iff]
        cases hk : alookup st.roomSecrets k with
        | none => exact h
        | some e0 =>
          by_cases hc : pid = e0.creatorId
          · simpa [hc] using h
          · simp only [hc, if_neg, not_false_iff]
            have h1 : RoomsOK (removePairKey st k).rooms := by
              rw [removePairKey_rooms]; exact h
            have h2 := RoomsOK_joinSecretRoom (removePairKey st k) pid e0.roomSecret h1
            cases hp2 : alookup (joinSecretRoom (removePairKey st k) pid
                e0.roomSecret).1.peers pid with
            | none => simpa [hp2] using h2
            | some p2 =>
              have h3 : RoomsOK (removePairKeyOpt (joinSecretRoom (removePairKey st k)
                  pid e0.roomSecret).1 p2.pairKey).rooms := by
                rw [removePairKeyOpt_rooms]; exact h2
              simpa [hp2] using h3
  | pairDeviceCancel pid =>
    show RoomsOK (onPairDeviceCancel st pid).1.rooms
    cases hp : alookup st.peers pid with
    | none => simp only [onPairDeviceCancel, hp]; exact h
    | some p =>
      cases hk : p.pairKey with
      | none => simp only [onPairDeviceCancel, hp, hk]; exact h
      | some k0 =>
        simp only [onPairDeviceCancel, hp, hk]
        show RoomsOK (removePairKey st k0).rooms
        rw [removePairKey_rooms]
        exact h
  | regenerateRoomSecret pid oldS newS =>
    show RoomsOK (onRegenerateRoomSecret st pid oldS newS).1.rooms
    unfold onRegenerateRoomSecret
    cases hp : alookup st.peers pid with
    | none => exact h
    | some _ =>
      apply RoomsOK_aremove
      rw [regenerateLoop_rooms]
      exact h
  | createPublicRoom pid rid =>
    show RoomsOK (onCreatePublicRoom st pid rid).1.rooms
    unfold onCreatePublicRoom
    cases hp : alookup st.peers pid with
    | none => exact h
    | some _ => exact RoomsOK_joinPublicRoom st pid rid h
  | joinPublicRoom pid rid ci =>
    show RoomsOK (onJoinPublicRoom st pid rid ci).1.rooms
    unfold onJoinPublicRoom
    cases hp : alookup st.peers pid with
    | none => exact h
    | some p =>
      by_cases hrl : p.rateLimited
      · simpa [hrl] using h
      · by_cases hin : (alookup st.rooms rid).isNone && !ci
        · simpa [hrl, hin] using h
        · simpa [hrl, hin] using
            RoomsOK_joinPublicRoom (leavePublicRoom st pid false).1 pid rid
              (RoomsOK_leavePublicRoom st pid false h)
  | leavePublicRoomMsg pid =>
    show RoomsOK (onLeavePublicRoom st pid).1.rooms
    unfold onLeavePublicRoom
    cases hp : alookup st.peers pid with
    | none => exact h
    | some _ => exact RoomsOK_leavePublicRoom st pid true h
  | signal pid m => exact h
  | binaryFrame pid data => exact h

theorem RoomsOK_runState (wsFallback : Bool) (evs : List Event) :
    ∀ (st : ServerState), RoomsOK st.rooms →
      RoomsOK (runState wsFallback st evs).rooms := by
  induction evs with
  | nil => intro st h; exact h
  | cons e t ih =>
    intro st h
    exact ih _ (RoomsOK_step wsFallback st e h)

theorem RoomsOK_initState : RoomsOK initState.rooms := by
  constructor <;> intro r mems hm <;> cases hm

/-- C9: after any finite sequence of handler executions from the empty
state, no registry entry maps to an empty member list; and when the last
member of a room leaves, _leaveRoom deletes the entry and emits no
peer-left event. -/
theorem spec_C9 :
    (∀ (fb : Bool) (evs : List Event) (r : String) (mems : List String),
      alookup (runState fb initState evs).rooms r = some mems → mems ≠ []) ∧
    (∀ (st : ServerState) (pid rt rid : String) (d : Bool),
      alookup st.rooms rid = some [pid] →
      alookup (leaveRoom st pid rt rid d).1.rooms rid = none ∧
        (leaveRoom st pid rt rid d).2 = []) := by
  constructor
  · intro fb evs r mems hm
    exact (RoomsOK_runState fb evs initState RoomsOK_initState).1 r mems hm
  · intro st pid rt rid d hm
    have hres : leaveRoom st pid rt rid d =
        ({ st with rooms := aremove st.rooms rid }, []) := by
      simp [leaveRoom, hm]
    rw [hres]
    refine ⟨?_, rfl⟩
    rw [alookup_aremove, if_pos rfl]

/-- Closed instance of C9 at a concrete run and a concrete singleton
leave. -/
theorem spec_C9_witness :
    (["a"] : List String) ≠ [] ∧
    (alookup (leaveRoom ⟨[("room1", ["a"])], [], []⟩ "a" "ip" "room1" true).1.rooms
        "room1" = none ∧
      (leaveRoom ⟨[("room1", ["a"])], [], []⟩ "a" "ip" "room1" true).2 = []) := by
  refine ⟨?_, ?_⟩
  · exact spec_C9.1 false
      [Event.connect ⟨"a", "1.1.1.1", true, 1, [], none, none, false⟩,
        Event.joinIp "a"] "1.1.1.1" ["a"] (by decide)
  · exact spec_C9.2 ⟨[("room1", ["a"])], [], []⟩ "a" "ip" "room1" true (by decide)

/-! ## Output characterizations used for the join / rejoin sequence -/

theorem filter_pair_map (l : List String) (msg : OutMsg) (o : String) :
    (l.map (fun x => (x, msg))).filter (fun e => e.1 == o) =
      (l.filter (fun x => x == o)).map (fun x => (x, msg)) := by
  induction l with
  | nil => rfl
  | cons a t ih =>
    by_cases h : a = o <;> simp [List.filter_cons, h, ih]

theorem filter_beq_singleton (l : List String) (o : String) (hnd : l.Nodup)
    (ho : o ∈ l) : l.filter (fun x => x == o) = [o] := by
  induction l with
  | nil => cases ho
  | cons a t ih =>
    have hna := (List.nodup_cons.mp hnd).1
    have hndt := (List.nodup_cons.mp hnd).2
    rcases List.mem_cons.mp ho with rfl | hot
    · rw [List.filter_cons, if_pos (by simp)]
      have ht : t.filter (fun x => x == o) = [] := by
        rw [List.filter_eq_nil_iff]
        intro x hx
        simp only [beq_iff_eq]
        exact fun hxo => hna (hxo ▸ hx)
      simp [ht]
    · have hao : ¬(a = o) := fun h => hna (h ▸ hot)
      simp [List.filter_cons, hao, ih hndt hot]

theorem filter_ne_of_not_mem (l : List String) (pid : String) (h : pid ∉ l) :
    l.filter (fun x => x != pid) = l :=
  List.filter_eq_self.mpr (fun a ha => by
    simp only [bne_iff_ne, ne_eq]
    exact fun hx => h (hx ▸ ha))

theorem getInfoOf_congr (st st' : ServerState) (pid : String)
    (h : st.peers = st'.peers) : getInfoOf st pid = getInfoOf st' pid := by
  unfold getInfoOf
  rw [h]

/-- First join of a peer not yet in an existing room: the output is the
notify round, the room gains the peer at the end. -/
theorem joinRoom_fresh (st : ServerState) (pid rt rid : String)
    (mems : List String) (hm : alookup st.rooms rid = some mems)
    (hp : pid ∉ mems) :
    joinRoom st pid rt rid =
      ({ st with rooms := aset st.rooms rid (mems ++ [pid]) },
        notifyPeers st pid rt rid) := by
  have hmem : ¬memberOf st.rooms rid pid :=
    fun hc => hp ((memberOf_iff_of_some hm).mp hc)
  unfold joinRoom joinRoomInsert
  simp [hmem, hm, hp]

/-- Re-join of a member whose departure leaves the room nonempty: the
peer-left round precedes the notify round. -/
theorem joinRoom_rejoin (st : ServerState) (pid rt rid : String)
    (mems : List String) (hm : alookup st.rooms rid = some mems)
    (hpm : pid ∈ mems) (hne : mems.erase pid ≠ []) :
    joinRoom st pid rt rid =
      ((joinRoomInsert { st with rooms := aset st.rooms rid (mems.erase pid) }
          pid rt rid).1,
        (mems.erase pid).map
            (fun o => (o, OutMsg.peerLeft pid rt rid false)) ++
          (joinRoomInsert { st with rooms := aset st.rooms rid (mems.erase pid) }
            pid rt rid).2) := by
  have hmem : memberOf st.rooms rid pid := (memberOf_iff_of_some hm).mpr hpm
  have hleave : leaveRoom st pid rt rid false =
      ({ st with rooms := aset st.rooms rid (mems.erase pid) },
        (mems.erase pid).map
          (fun o => (o, OutMsg.peerLeft pid rt rid false))) := by
    simp [leaveRoom, hm, hpm, hne]
  unfold joinRoom
  rw [if_pos hmem, hleave]

/-- C2: an observer already in the room sees, across a peer's first join
and its re-join of the same room, exactly the event sequence
peer-joined, peer-left, peer-joined for that peer. -/
theorem spec_C2 (st : ServerState) (pid o rt r : String) (mems : List String)
    (hm : alookup st.rooms r = some mems) (ho : o ∈ mems)
    (hnd : mems.Nodup) (hp : pid ∉ mems) (hop : o ≠ pid) :
    ((joinRoom st pid rt r).2 ++
        (joinRoom (joinRoom st pid rt r).1 pid rt r).2).filter
      (fun e => e.1 == o) =
      [(o, OutMsg.peerJoined (getInfoOf st pid) rt r),
       (o, OutMsg.peerLeft pid rt r false),
       (o, OutMsg.peerJoined (getInfoOf st pid) rt r)] := by
  have hpo : ¬(pid = o) := fun h => hop h.symm
  have hnotify1 : notifyPeers st pid rt r =
      (mems.map (fun x => (x, OutMsg.peerJoined (getInfoOf st pid) rt r)))
        ++ [(pid, OutMsg.peersList (mems.map (getInfoOf st)) rt r)] := by
    simp [notifyPeers, hm, filter_ne_of_not_mem mems pid hp]
  have hj1 := joinRoom_fresh st pid rt r mems hm hp
  set stJ : ServerState := { st with rooms := aset st.rooms r (mems ++ [pid]) }
    with hstJ
  have hlook2 : alookup stJ.rooms r = some (mems ++ [pid]) := by
    show alookup (aset st.rooms r (mems ++ [pid])) r = _
    rw [alookup_aset, if_pos rfl]
  have hpm2 : pid ∈ mems ++ [pid] := by simp
  have herase : (mems ++ [pid]).erase pid = mems := by
    rw [List.erase_append_right _ hp]
    simp
  have hmemsne : mems ≠ [] := fun h => by rw [h] at ho; cases ho
  have hj2 := joinRoom_rejoin stJ pid rt r (mems ++ [pid]) hlook2 hpm2
    (by rw [herase]; exact hmemsne)
  rw [herase] at hj2
  set stL : ServerState := { stJ with rooms := aset stJ.rooms r mems } with hstL
  have hlook3 : alookup stL.rooms r = some mems := by
    show alookup (aset stJ.rooms r mems) r = _
    rw [alookup_aset, if_pos rfl]
  have hpeersL : stL.peers = st.peers := rfl
  have hnotify2 : notifyPeers stL pid rt r =
      (mems.map (fun x => (x, OutMsg.peerJoined (getInfoOf st pid) rt r)))
        ++ [(pid, OutMsg.peersList (mems.map (getInfoOf stL)) rt r)] := by
    simp [notifyPeers, hlook3, filter_ne_of_not_mem mems pid hp,
      getInfoOf_congr stL st pid hpeersL]
  have hinsert : (joinRoomInsert stL pid rt r).2 = notifyPeers stL pid rt r := by
    simp [joinRoomInsert, hlook3, hp]
  rw [hj1, hj2]
  simp only [hinsert, hnotify1, hnotify2]
  simp only [List.filter_append]
  rw [filter_pair_map, filter_pair_map,
    filter_beq_singleton mems o hnd ho]
  have hobs : mems.filter (fun x => x == pid) = [] := by
    rw [List.filter_eq_nil_iff]
    intro x hx
    simp only [beq_iff_eq]
    exact fun hxp => hp (hxp ▸ hx)
  have hsolo : ∀ m : OutMsg, ([(pid, m)] : Out).filter (fun e => e.1 == o) = [] := by
    intro m
    simp [List.filter_cons, hpo]
  rw [hsolo, hsolo]
  simp

/-- Fixture: a freshly connected peer with open socket. -/
def wsPeer (i ipv : String) : PeerData := ⟨i, ipv, true, 1, [], none, none, false⟩

/-- Fixture: a peer whose rate limit is reached. -/
def wsPeerLim (i ipv : String) : PeerData := ⟨i, ipv, true, 1, [], none, none, true⟩

/-- Fixture state for the C2 witness. -/
def stW2 : ServerState :=
  ⟨[("r", ["o"])], [], [("o", wsPeer "o" "2.2.2.2"), ("p", wsPeer "p" "2.2.2.2")]⟩

/-- Closed instance of C2: the observer o sees joined, left, joined. -/
theorem spec_C2_witness :
    ((joinRoom stW2 "p" "ip" "r").2 ++
        (joinRoom (joinRoom stW2 "p" "ip" "r").1 "p" "ip" "r").2).filter
      (fun e => e.1 == "o") =
      [("o", OutMsg.peerJoined (getInfoOf stW2 "p") "ip" "r"),
       ("o", OutMsg.peerLeft "p" "ip" "r" false),
       ("o", OutMsg.peerJoined (getInfoOf stW2 "p") "ip" "r")] :=
  spec_C2 stW2 "p" "o" "ip" "r" ["o"] (by decide) (by decide) (by decide)
    (by decide) (by decide)

/-! ## Keep-alive claims -/

/-- C4 (amended): the first copy of _keepAlive disconnects on a tick
exactly when the elapsed time exceeds 2 x period, and a never-ponging
peer is disconnected within 3 x period; the second copy (lines 1113-1133)
instead uses 3 x period as the threshold, which delays disconnection to
within 4 x period. -/
theorem spec_C4_amended :
    (∀ now lb : Nat, keepAliveCheck1 now lb = true ↔
      now - lb > 2 * keepAlivePeriod) ∧
    (∀ now lb : Nat, keepAliveCheck2 now lb = true ↔
      now - lb > 3 * keepAlivePeriod) ∧
    (∀ b d : Nat, d ≤ keepAlivePeriod →
      ∃ k : Nat, keepAliveCheck1 (b + d + keepAlivePeriod * k) b = true ∧
        b + d + keepAlivePeriod * k ≤ b + 3 * keepAlivePeriod) ∧
    (∀ b d : Nat, d ≤ keepAlivePeriod →
      ∃ k : Nat, keepAliveCheck2 (b + d + keepAlivePeriod * k) b = true ∧
        b + d + keepAlivePeriod * k ≤ b + 4 * keepAlivePeriod) := by
  refine ⟨?_, ?_, ?_, ?_⟩
  · intro now lb
    unfold keepAliveCheck1
    exact decide_eq_true_iff
  · intro now lb
    unfold keepAliveCheck2
    exact decide_eq_true_iff
  · intro b d hd
    by_cases h0 : d = 0
    · subst h0
      refine ⟨3, ?_, ?_⟩
      · unfold keepAliveCheck1 keepAlivePeriod
        rw [decide_eq_true_iff]
        omega
      · unfold keepAlivePeriod
        omega
    · refine ⟨2, ?_, ?_⟩
      · unfold keepAliveCheck1 keepAlivePeriod
        rw [decide_eq_true_iff]
        omega
      · unfold keepAlivePeriod at hd ⊢
        omega
  · intro b d hd
    by_cases h0 : d = 0
    · subst h0
      refine ⟨4, ?_, ?_⟩
      · unfold keepAliveCheck2 keepAlivePeriod
        rw [decide_eq_true_iff]
        omega
      · unfold keepAlivePeriod
        omega
    · refine ⟨3, ?_, ?_⟩
      · unfold keepAliveCheck2 keepAlivePeriod
        rw [decide_eq_true_iff]
        omega
      · unfold keepAlivePeriod at hd ⊢
        omega

/-- C4 counterexample: in the second copy a tick whose elapsed time
(6000 ms) exceeds 2 x period does not disconnect, and a peer whose last
pong was at 0 survives ticks at 2000, 4000 and 6000 ms, so it is not
disconnected within 3 x period. -/
theorem spec_C4_counterexample :
    keepAliveCheck2 6000 0 = false ∧ 6000 - 0 > 2 * keepAlivePeriod ∧
      keepAliveCheck2 2000 0 = false ∧ keepAliveCheck2 4000 0 = false := by
  decide

/-- Closed instance of the amended C4. -/
theorem spec_C4_witness :
    (keepAliveCheck1 4001 0 = true) ∧
    (∃ k : Nat, keepAliveCheck1 (0 + 2000 + keepAlivePeriod * k) 0 = true ∧
      0 + 2000 + keepAlivePeriod * k ≤ 0 + 3 * keepAlivePeriod) ∧
    (∃ k : Nat, keepAliveCheck2 (0 + 0 + keepAlivePeriod * k) 0 = true ∧
      0 + 0 + keepAlivePeriod * k ≤ 0 + 4 * keepAlivePeriod) :=
  ⟨(spec_C4_amended.1 4001 0).mpr (by decide),
   spec_C4_amended.2.2.1 0 2000 (by decide),
   spec_C4_amended.2.2.2 0 0 (by decide)⟩

/-! ## Relay claims -/

theorem isValidUuid_ne_empty (t : String) (h : isValidUuid t = true) : t ≠ "" := by
  intro he
  rw [he] at h
  exact absurd h (by decide)

/-- C5: a signal or ws-fallback relay message with a valid recipient id
present in the resolved room is forwarded to exactly that recipient with
the to field removed and a sender tag added, all other fields unchanged;
when the room or the recipient is missing, nothing is sent at all. -/
theorem spec_C5 :
    (∀ (st : ServerState) (pid t r : String) (sender : PeerData) (m : Msg)
        (mems : List String),
      alookup st.peers pid = some sender →
      m.toId = some t → isValidUuid t = true →
      resolvedRoom sender m = some r →
      alookup st.rooms r = some mems → t ∈ mems →
      signalAndRelay st pid m =
        [(t, OutMsg.relayed
          { m with toId := none, sender := some (getInfo sender) })]) ∧
    (∀ (st : ServerState) (pid t : String) (sender : PeerData) (m : Msg),
      alookup st.peers pid = some sender →
      m.toId = some t →
      (∀ r, resolvedRoom sender m = some r →
        ∀ mems, alookup st.rooms r = some mems → t ∉ mems) →
      signalAndRelay st pid m = []) := by
  constructor
  · intro st pid t r sender m mems hp hto hv hr hl hm
    have hne : t ≠ "" := isValidUuid_ne_empty t hv
    simp [signalAndRelay, hp, hto, hne, hv, hr, hl, hm]
  · intro st pid t sender m hp hto hdrop
    simp only [signalAndRelay, hp, hto]
    by_cases hc : t ≠ "" ∧ isValidUuid t
    · rw [if_pos hc]
      cases hr : resolvedRoom sender m with
      | none => simp
      | some r =>
        cases hl : alookup st.rooms r with
        | none => simp [hl]
        | some mems =>
          have hnm := hdrop r hr mems hl
          simp [hl, hnm]
    · rw [if_neg hc]

/-- Fixture state for the C5 witness: sender a and recipient with a
UUID-shaped id share the ip room. -/
def uuidW : String := "bbbbbbbb-0000-4000-8000-000000000000"

def stW5 : ServerState :=
  ⟨[("1.1.1.1", ["a", uuidW])], [],
   [("a", wsPeer "a" "1.1.1.1"), (uuidW, wsPeer uuidW "1.1.1.1")]⟩

def msgW5 : Msg := ⟨"signal", some "ip", none, some uuidW, none, [("payload", "x")]⟩

/-- The C5 drop scenario: same message addressed into a missing room. -/
def msgW5b : Msg := ⟨"signal", none, some "nope", some uuidW, none, [("payload", "x")]⟩

/-- Closed instance of C5: delivery on the ip room, and silent drop when
the resolved room does not exist. -/
theorem spec_C5_witness :
    signalAndRelay stW5 "a" msgW5 =
      [(uuidW, OutMsg.relayed
        { msgW5 with toId := none, sender := some (getInfo (wsPeer "a" "1.1.1.1")) })] ∧
    signalAndRelay stW5 "a" msgW5b = [] := by
  constructor
  · exact spec_C5.1 stW5 "a" uuidW "1.1.1.1" (wsPeer "a" "1.1.1.1") msgW5
      ["a", uuidW] (by decide) (by decide) (by decide) (by decide) (by decide)
      (by decide)
  · exact spec_C5.2 stW5 "a" uuidW (wsPeer "a" "1.1.1.1") msgW5b (by decide)
      (by decide) (by decide)

/-- C6: a binary frame is dropped unconditionally when wsFallback is off;
otherwise, when the recipient id in bytes 0-36 is UUID-shaped, the room
resolved from the marker byte exists, the recipient is in it and its
socket is open, the recipient receives exactly bytes 101-end as a binary
frame. -/
theorem spec_C6 :
    (∀ (st : ServerState) (pid : String) (data : List Char)
        (sender rc : PeerData) (mems : List String),
      alookup st.peers pid = some sender →
      isValidUuid (String.mk (data.take 36)) = true →
      alookup st.rooms (binResolvedRoom sender data) = some mems →
      String.mk (data.take 36) ∈ mems →
      alookup st.peers (String.mk (data.take 36)) = some rc →
      rc.readyState = 1 →
      relayBinaryMessage true st pid data =
        [(String.mk (data.take 36), OutMsg.binary (data.drop 101))]) ∧
    (∀ (st : ServerState) (pid : String) (data : List Char),
      relayBinaryMessage false st pid data = []) := by
  constructor
  · intro st pid data sender rc mems hp hv hl hm hrc hrs
    simp [relayBinaryMessage, hp, hv, hl, hm, hrc, hrs]
  · intro st pid data
    rfl

/-- The binary frame of the spec scenario: recipient id, marker i, 64
zero bytes, then the payload HELLO. -/
def frameW6 : List Char :=
  uuidW.toList ++ ['i'] ++ List.replicate 64 '\x00' ++ "HELLO".toList

/-- Closed instance of C6 at the spec scenario frame. -/
theorem spec_C6_witness :
    relayBinaryMessage true stW5 "a" frameW6 =
      [(uuidW, OutMsg.binary "HELLO".toList)] ∧
    relayBinaryMessage false stW5 "a" frameW6 = [] := by
  constructor
  · exact spec_C6.1 stW5 "a" frameW6 (wsPeer "a" "1.1.1.1") (wsPeer uuidW "1.1.1.1")
      ["a", uuidW] (by decide) (by decide) (by decide) (by decide) (by decide)
      (by decide)
  · exact spec_C6.2 stW5 "a" frameW6

/-! ## Pair-device-join rejection -/

/-- C7 (amended): provided the sender's rate limit is not reached, a
pair-device-join with an unknown key or a self-join is answered with
pair-device-join-key-invalid and the whole server state, in particular
the pair-key directory, is left unchanged. -/
theorem spec_C7_amended (st : ServerState) (sid K : String) (sender : PeerData)
    (hp : alookup st.peers sid = some sender)
    (hrl : sender.rateLimited = false)
    (hinv : alookup st.roomSecrets K = none ∨
      ∃ e, alookup st.roomSecrets K = some e ∧ e.creatorId = sid) :
    onPairDeviceJoin st sid K = (st, [(sid, OutMsg.pairDeviceJoinKeyInvalid)]) := by
  rcases hinv with hn | ⟨e, he, hc⟩
  · simp [onPairDeviceJoin, hp, hrl, hn]
  · have hcc : sid = e.creatorId := hc.symm
    simp only [onPairDeviceJoin, hp, hrl, he, Bool.false_eq_true, if_false]
    rw [if_pos hcc]

/-- Fixture state for the C7 results: a rate-limited sender. -/
def stW7 : ServerState := ⟨[], [("654321", ⟨"sec", "b"⟩)],
  [("a", wsPeerLim "a" "1.1.1.1"), ("b", wsPeer "b" "1.1.1.1")]⟩

/-- C7 counterexample: a rate-limited sender submitting an unknown key is
answered join-key-rate-limit, not pair-device-join-key-invalid, so the
claim as stated fails without the rate-limit proviso. -/
theorem spec_C7_counterexample :
    (onPairDeviceJoin stW7 "a" "123456").2 = [("a", OutMsg.joinKeyRateLimit)] ∧
    ("a", OutMsg.pairDeviceJoinKeyInvalid) ∉ (onPairDeviceJoin stW7 "a" "123456").2 := by
  decide

/-- Fixture state for the C7 witness: same directory, sender not limited. -/
def stW7b : ServerState := ⟨[], [("654321", ⟨"sec", "b"⟩)],
  [("a", wsPeer "a" "1.1.1.1"), ("b", wsPeer "b" "1.1.1.1")]⟩

/-- Closed instance of the amended C7: unknown key rejected, state
untouched (the resident key 654321 stays in the directory). -/
theorem spec_C7_witness :
    onPairDeviceJoin stW7b "a" "123456" =
      (stW7b, [("a", OutMsg.pairDeviceJoinKeyInvalid)]) ∧
    onPairDeviceJoin stW7b "b" "654321" =
      (stW7b, [("b", OutMsg.pairDeviceJoinKeyInvalid)]) := by
  constructor
  · exact spec_C7_amended stW7b "a" "123456" (wsPeer "a" "1.1.1.1") (by decide)
      (by decide) (Or.inl (by decide))
  · exact spec_C7_amended stW7b "b" "654321" (wsPeer "b" "1.1.1.1") (by decide)
      (by decide) (Or.inr ⟨⟨"sec", "b"⟩, by decide, by decide⟩)

/-! ## Pair-device-join success (C1) -/

theorem alookup_removePairKey_dir (st : ServerState) (k q : String) :
    alookup (removePairKey st k).roomSecrets q =
      if k = q then none else alookup st.roomSecrets q := by
  cases h : alookup st.roomSecrets k with
  | none =>
    simp only [removePairKey, h]
    by_cases hq : k = q
    · rw [if_pos hq, ← hq]
      exact h
    · rw [if_neg hq]
  | some e =>
    simp only [removePairKey, h]
    show alookup (aremove (updatePeer st e.creatorId _).roomSecrets k) q = _
    rw [updatePeer_dir, alookup_aremove]

theorem alookup_removePairKeyOpt_dir_none (st : ServerState) (k? : Option String)
    (q : String) (h : alookup st.roomSecrets q = none) :
    alookup (removePairKeyOpt st k?).roomSecrets q = none := by
  cases k? with
  | none => exact h
  | some k =>
    show alookup (removePairKey st k).roomSecrets q = none
    rw [alookup_removePairKey_dir]
    by_cases hq : k = q
    · rw [if_pos hq]
    · rw [if_neg hq]; exact h

theorem alookup_removePairKey_peers (st : ServerState) (k q : String) :
    alookup (removePairKey st k).peers q =
      (match alookup st.roomSecrets k with
      | none => alookup st.peers q
      | some e =>
        if e.creatorId = q
        then (alookup st.peers q).map (fun p => { p with pairKey := none })
        else alookup st.peers q) := by
  cases h : alookup st.roomSecrets k with
  | none => simp only [removePairKey, h]
  | some e =>
    simp only [removePairKey, h]
    show alookup (updatePeer st e.creatorId _).peers q = _
    rw [alookup_updatePeer]

theorem removePairKeyOpt_roomSecrets_field (st : ServerState) (k? : Option String)
    (q : String) :
    (alookup (removePairKeyOpt st k?).peers q).map PeerData.roomSecrets =
      (alookup st.peers q).map PeerData.roomSecrets := by
  cases k? with
  | none => rfl
  | some k =>
    show (alookup (removePairKey st k).peers q).map PeerData.roomSecrets = _
    cases h : alookup st.roomSecrets k with
    | none => simp only [removePairKey, h]
    | some e =>
      simp only [removePairKey, h]
      show (alookup (updatePeer st e.creatorId _).peers q).map PeerData.roomSecrets = _
      rw [alookup_updatePeer]
      by_cases hc : e.creatorId = q
      · rw [if_pos hc]
        cases alookup st.peers q <;> rfl
      · rw [if_neg hc]

theorem alookup_joinSecretRoom_peers (st : ServerState) (pid s q : String) :
    alookup (joinSecretRoom st pid s).1.peers q =
      if pid = q then (alookup st.peers q).map (fun p => addRoomSecret p s)
      else alookup st.peers q := by
  show alookup (updatePeer (joinRoom st pid "secret" s).1 pid _).peers q = _
  rw [alookup_updatePeer, joinRoom_peers]

theorem mem_addRoomSecret (p : PeerData) (s s' : String) :
    s' ∈ (addRoomSecret p s).roomSecrets ↔ (s' = s ∨ s' ∈ p.roomSecrets) := by
  unfold addRoomSecret
  by_cases h : s ∈ p.roomSecrets
  · rw [if_pos h]
    constructor
    · exact Or.inr
    · rintro (rfl | h2)
      · exact h
      · exact h2
  · rw [if_neg h]
    show s' ∈ p.roomSecrets ++ [s] ↔ _
    rw [List.mem_append, List.mem_singleton]
    tauto

/-- Reduction of _onPairDeviceJoin on the success path. -/
theorem onPairDeviceJoin_success (st : ServerState) (sid K : String)
    (sender : PeerData) (e : PairEntry)
    (hp : alookup st.peers sid = some sender)
    (hrl : sender.rateLimited = false)
    (hk : alookup st.roomSecrets K = some e)
    (hnc : ¬(sid = e.creatorId)) :
    onPairDeviceJoin st sid K =
      ((match alookup (joinSecretRoom (removePairKey st K) sid e.roomSecret).1.peers
          sid with
        | none => (joinSecretRoom (removePairKey st K) sid e.roomSecret).1
        | some p2 =>
          removePairKeyOpt (joinSecretRoom (removePairKey st K) sid e.roomSecret).1
            p2.pairKey),
       [(sid, OutMsg.pairDeviceJoined e.roomSecret e.creatorId),
        (e.creatorId, OutMsg.pairDeviceJoined e.roomSecret sid)] ++
         (joinSecretRoom (removePairKey st K) sid e.roomSecret).2) := by
  simp only [onPairDeviceJoin, hp, hrl, hk, Bool.false_eq_true, if_false, if_neg hnc]

/-- C1: on a valid pair-device-join (rate limit not reached, key present,
joiner differs from the creator) the key leaves the directory, both sides
are sent pair-device-joined carrying the room secret and the other id,
and the joiner is joined to the secret room (registry and roomSecrets). -/
theorem spec_C1 (st : ServerState) (sid K : String) (sender : PeerData)
    (e : PairEntry)
    (hnd : roomsNodup st.rooms)
    (hp : alookup st.peers sid = some sender)
    (hrl : sender.rateLimited = false)
    (hk : alookup st.roomSecrets K = some e)
    (hnc : sid ≠ e.creatorId) :
    alookup (onPairDeviceJoin st sid K).1.roomSecrets K = none ∧
    (sid, OutMsg.pairDeviceJoined e.roomSecret e.creatorId) ∈
      (onPairDeviceJoin st sid K).2 ∧
    (e.creatorId, OutMsg.pairDeviceJoined e.roomSecret sid) ∈
      (onPairDeviceJoin st sid K).2 ∧
    memberOf (onPairDeviceJoin st sid K).1.rooms e.roomSecret sid ∧
    (∃ rs, (alookup (onPairDeviceJoin st sid K).1.peers sid).map
        PeerData.roomSecrets = some rs ∧ e.roomSecret ∈ rs) := by
  have hred := onPairDeviceJoin_success st sid K sender e hp hrl hk hnc
  have hdirK : alookup (removePairKey st K).roomSecrets K = none := by
    rw [alookup_removePairKey_dir, if_pos rfl]
  have hlk1 : alookup (removePairKey st K).peers sid = some sender := by
    rw [alookup_removePairKey_peers, hk]
    show (if e.creatorId = sid
      then (alookup st.peers sid).map (fun p => { p with pairKey := none })
      else alookup st.peers sid) = some sender
    rw [if_neg (fun h => hnc h.symm)]
    exact hp
  have hlk2 : alookup (joinSecretRoom (removePairKey st K) sid
      e.roomSecret).1.peers sid = some (addRoomSecret sender e.roomSecret) := by
    rw [alookup_joinSecretRoom_peers, if_pos rfl, hlk1]
    rfl
  have hdir2 : alookup (joinSecretRoom (removePairKey st K) sid
      e.roomSecret).1.roomSecrets K = none := by
    show alookup (updatePeer (joinRoom (removePairKey st K) sid "secret"
      e.roomSecret).1 sid _).roomSecrets K = none
    rw [updatePeer_dir, joinRoom_dir]
    exact hdirK
  have hmem2 : memberOf (joinSecretRoom (removePairKey st K) sid
      e.roomSecret).1.rooms e.roomSecret sid := by
    rw [joinSecretRoom_rooms]
    rw [memberOf_joinRoom (removePairKey st K) sid "secret" e.roomSecret
      (by rw [removePairKey_rooms]; exact hnd)]
    exact Or.inl ⟨rfl, rfl⟩
  rw [hred]
  rw [hlk2]
  refine ⟨?_, ?_, ?_, ?_, ?_⟩
  · exact alookup_removePairKeyOpt_dir_none _ _ K hdir2
  · simp
  · simp
  · show memberOf (removePairKeyOpt _ _).rooms e.roomSecret sid
    rw [removePairKeyOpt_rooms]
    exact hmem2
  · refine ⟨(addRoomSecret sender e.roomSecret).roomSecrets, ?_, ?_⟩
    · show (alookup (removePairKeyOpt _ _).peers sid).map PeerData.roomSecrets = _
      rw [removePairKeyOpt_roomSecrets_field, hlk2]
      rfl
    · rw [mem_addRoomSecret]
      exact Or.inl rfl

/-- Fixture for the C1 witness: creator b holds key 123456 for a fresh
secret; peer a joins with the key. -/
def w1secret : String := String.mk (List.replicate 64 's')

def stW1 : ServerState :=
  ⟨[(w1secret, ["b"])], [("123456", ⟨w1secret, "b"⟩)],
   [("a", wsPeer "a" "1.1.1.1"),
    ("b", { wsPeer "b" "1.1.1.1" with roomSecrets := [w1secret], pairKey := some "123456" })]⟩

theorem roomsNodup_single (k : String) (ms : List String) (h : ms.Nodup) :
    roomsNodup [(k, ms)] := by
  intro r mems hm
  simp only [alookup] at hm
  by_cases hr : k = r
  · rw [if_pos hr] at hm
    cases hm
    exact h
  · rw [if_neg hr] at hm
    cases hm

/-- Closed instance of C1. -/
theorem spec_C1_witness :
    alookup (onPairDeviceJoin stW1 "a" "123456").1.roomSecrets "123456" = none ∧
    ("a", OutMsg.pairDeviceJoined w1secret "b") ∈
      (onPairDeviceJoin stW1 "a" "123456").2 ∧
    ("b", OutMsg.pairDeviceJoined w1secret "a") ∈
      (onPairDeviceJoin stW1 "a" "123456").2 ∧
    memberOf (onPairDeviceJoin stW1 "a" "123456").1.rooms w1secret "a" ∧
    (∃ rs, (alookup (onPairDeviceJoin stW1 "a" "123456").1.peers "a").map
        PeerData.roomSecrets = some rs ∧ w1secret ∈ rs) :=
  spec_C1 stW1 "a" "123456" (wsPeer "a" "1.1.1.1") ⟨w1secret, "b"⟩
    (roomsNodup_single w1secret ["b"] (by decide)) (by decide) (by decide)
    (by decide) (by decide)

/-! ## Disconnect cascade (C3).  The loop of _leaveAllSecretRooms indexes
peer.roomSecrets while each iteration removes the current element from
it, so with two secrets the loop stops after the first: the second secret
room is never left. -/

/-- Two well-formed 64-character room secrets. -/
def w3s1 : String := String.mk (List.replicate 64 'a')

def w3s2 : String := String.mk (List.replicate 64 'b')

/-- Fixture: peers pa and pb share both secret rooms; pa disconnects. -/
def stW3 : ServerState :=
  ⟨[(w3s1, ["pa", "pb"]), (w3s2, ["pa", "pb"])], [],
   [("pa", { wsPeer "pa" "1.1.1.1" with roomSecrets := [w3s1, w3s2] }),
    ("pb", { wsPeer "pb" "1.1.1.1" with roomSecrets := [w3s1, w3s2] })]⟩

set_option maxRecDepth 4000 in
/-- C3 at the failing input: after disconnect(pa), pa is still a member
of the second secret room, that secret is still in pa.roomSecrets, pb
never receives peer-left for it, and the socket is terminated last. -/
theorem spec_C3 :
    memberOf (disconnect stW3 "pa").1.rooms w3s2 "pa" ∧
    ((alookup (disconnect stW3 "pa").1.peers "pa").map PeerData.roomSecrets =
      some [w3s2]) ∧
    ("pb", OutMsg.peerLeft "pa" "secret" w3s2 true) ∉ (disconnect stW3 "pa").2 ∧
    (disconnect stW3 "pa").2.getLast? = some ("pa", OutMsg.terminated) := by
  decide

/-! ## Relay noninterference (C10) -/

/-- C10 (amended): relay output is independent of the sender's own room
membership, provided the addressed recipient is not the sender itself:
two states with the same peers whose registries agree on the membership
of every peer other than the sender produce identical relay output, for
the JSON relay and for the binary relay. -/
theorem spec_C10_amended :
    (∀ (st1 st2 : ServerState) (pid t : String) (m : Msg),
      st1.peers = st2.peers →
      m.toId = some t → t ≠ pid →
      (∀ q, q ≠ pid → ∀ r, memberOf st1.rooms r q ↔ memberOf st2.rooms r q) →
      signalAndRelay st1 pid m = signalAndRelay st2 pid m) ∧
    (∀ (fb : Bool) (st1 st2 : ServerState) (pid : String) (data : List Char),
      st1.peers = st2.peers →
      String.mk (data.take 36) ≠ pid →
      (∀ q, q ≠ pid → ∀ r, memberOf st1.rooms r q ↔ memberOf st2.rooms r q) →
      relayBinaryMessage fb st1 pid data = relayBinaryMessage fb st2 pid data) := by
  constructor
  · intro st1 st2 pid t m hpe hto htp hmem
    cases hs : alookup st1.peers pid with
    | none =>
      have hs2 : alookup st2.peers pid = none := by rw [← hpe]; exact hs
      simp [signalAndRelay, hs, hs2]
    | some sender =>
      have hs2 : alookup st2.peers pid = some sender := by rw [← hpe]; exact hs
      by_cases hc : t ≠ "" ∧ isValidUuid t
      · cases hr : resolvedRoom sender m with
        | none => simp [signalAndRelay, hs, hs2, hto, hr]
        | some r =>
          cases hl1 : alookup st1.rooms r with
          | none =>
            cases hl2 : alookup st2.rooms r with
            | none => simp [signalAndRelay, hs, hs2, hto, hr, hl1, hl2]
            | some mems2 =>
              have hnm2 : t ∉ mems2 := fun hc2 =>
                (not_memberOf_of_none hl1)
                  ((hmem t htp r).mpr ((memberOf_iff_of_some hl2).mpr hc2))
              simp [signalAndRelay, hs, hs2, hto, hr, hl1, hl2, hnm2]
          | some mems1 =>
            cases hl2 : alookup st2.rooms r with
            | none =>
              have hnm1 : t ∉ mems1 := fun hc2 =>
                (not_memberOf_of_none hl2)
                  ((hmem t htp r).mp ((memberOf_iff_of_some hl1).mpr hc2))
              simp [signalAndRelay, hs, hs2, hto, hr, hl1, hl2, hnm1]
            | some mems2 =>
              have hiff : t ∈ mems1 ↔ t ∈ mems2 := by
                rw [← memberOf_iff_of_some hl1, ← memberOf_iff_of_some hl2]
                exact hmem t htp r
              by_cases hm1 : t ∈ mems1
              · simp [signalAndRelay, hs, hs2, hto, hr, hl1, hl2, hm1, hiff.mp hm1]
              · simp [signalAndRelay, hs, hs2, hto, hr, hl1, hl2, hm1]
                intro _ _
                exact fun h => hm1 (hiff.mpr h)
      · simp [signalAndRelay, hs, hs2, hto, hc]
  · intro fb st1 st2 pid data hpe hrp hmem
    cases fb with
    | false => rfl
    | true =>
      cases hs : alookup st1.peers pid with
      | none =>
        have hs2 : alookup st2.peers pid = none := by rw [← hpe]; exact hs
        simp [relayBinaryMessage, hs, hs2]
      | some sender =>
        have hs2 : alookup st2.peers pid = some sender := by rw [← hpe]; exact hs
        by_cases hv : isValidUuid (String.mk (data.take 36))
        · cases hl1 : alookup st1.rooms (binResolvedRoom sender data) with
          | none =>
            cases hl2 : alookup st2.rooms (binResolvedRoom sender data) with
            | none => simp [relayBinaryMessage, hs, hs2, hv, hl1, hl2]
            | some mems2 =>
              have hnm2 : String.mk (data.take 36) ∉ mems2 := fun hc2 =>
                (not_memberOf_of_none hl1)
                  ((hmem (String.mk (data.take 36)) hrp (binResolvedRoom sender data)).mpr
                    ((memberOf_iff_of_some hl2).mpr hc2))
              simp [relayBinaryMessage, hs, hs2, hv, hl1, hl2, hnm2]
          | some mems1 =>
            cases hl2 : alookup st2.rooms (binResolvedRoom sender data) with
            | none =>
              have hnm1 : String.mk (data.take 36) ∉ mems1 := fun hc2 =>
                (not_memberOf_of_none hl2)
                  ((hmem (String.mk (data.take 36)) hrp (binResolvedRoom sender data)).mp
                    ((memberOf_iff_of_some hl1).mpr hc2))
              simp [relayBinaryMessage, hs, hs2, hv, hl1, hl2, hnm1]
            | some mems2 =>
              have hiff : String.mk (data.take 36) ∈ mems1 ↔
                  String.mk (data.take 36) ∈ mems2 := by
                rw [← memberOf_iff_of_some hl1, ← memberOf_iff_of_some hl2]
                exact hmem (String.mk (data.take 36)) hrp (binResolvedRoom sender data)
              by_cases hm1 : String.mk (data.take 36) ∈ mems1
              · simp [relayBinaryMessage, hs, hs2, hv, hl1, hl2, hm1, hiff.mp hm1,
                  ← hpe]
              · simp [relayBinaryMessage, hs, hs2, hv, hl1, hl2, hm1]
                intro h
                exact absurd (hiff.mpr h) hm1
        · simp [relayBinaryMessage, hs, hs2, hv]

/-! ## Room-membership symmetry (C8).

The registry is one untyped map, so a single string used as a room key in
two namespaces (say as a public-room id and as a room secret) breaks the
claimed iff; the invariant holds for traces in which every key stays in
one namespace.  A classifier assigns each string its namespace and every
event is required to use correctly classified keys. -/

/-- The three room-key namespaces of the spec data model. -/
inductive NameClass where
  | ipClass
  | secretClass
  | publicClass
deriving DecidableEq

/-- Event well-formedness for a classifier: connects start clean with an
ip-class address, and every client- or server-supplied room key belongs
to the namespace of the operation using it. -/
def WFev (cls : String → NameClass) : Event → Prop
  | Event.connect p => p.roomSecrets = [] ∧ p.publicRoomId = none ∧
      cls p.ip = NameClass.ipClass
  | Event.roomSecretsMsg _ ss =>
      ∀ s ∈ ss.filter isSecretShaped, cls s = NameClass.secretClass
  | Event.roomSecretsDeletedMsg _ ss => ∀ s ∈ ss, cls s = NameClass.secretClass
  | Event.pairDeviceInitiate _ rs _ => cls rs = NameClass.secretClass
  | Event.regenerateRoomSecret _ oldS _ => cls oldS = NameClass.secretClass
  | Event.createPublicRoom _ rid => cls rid = NameClass.publicClass
  | Event.joinPublicRoom _ rid _ => cls rid = NameClass.publicClass
  | _ => True

/-- The state invariant of C8, strengthened for the induction: registry
well-formedness, namespace classification of every stored key, the two
membership symmetries, and that every room member is a stored peer. -/
structure Inv (cls : String → NameClass) (st : ServerState) : Prop where
  ok : RoomsOK st.rooms
  peerIp : ∀ pid p, alookup st.peers pid = some p → cls p.ip = NameClass.ipClass
  peerSecrets : ∀ pid p, alookup st.peers pid = some p →
    ∀ s ∈ p.roomSecrets, cls s = NameClass.secretClass
  peerPublic : ∀ pid p, alookup st.peers pid = some p →
    ∀ r, p.publicRoomId = some r → cls r = NameClass.publicClass
  secNodup : ∀ pid p, alookup st.peers pid = some p → p.roomSecrets.Nodup
  secSym : ∀ pid p, alookup st.peers pid = some p →
    ∀ s, cls s = NameClass.secretClass →
      (s ∈ p.roomSecrets ↔ memberOf st.rooms s pid)
  pubSym : ∀ pid p, alookup st.peers pid = some p →
    ∀ r, cls r = NameClass.publicClass →
      (p.publicRoomId = some r ↔ memberOf st.rooms r pid)
  dirOK : ∀ k e, alookup st.roomSecrets k = some e →
    cls e.roomSecret = NameClass.secretClass
  stored : ∀ r q, memberOf st.rooms r q → (alookup st.peers q).isSome

theorem inv_initState (cls : String → NameClass) : Inv cls initState := by
  refine ⟨RoomsOK_initState, ?_, ?_, ?_, ?_, ?_, ?_, ?_, ?_⟩ <;>
    intro a b h <;> cases h

/-- addRoomSecret touches only the roomSecrets field. -/
theorem addRoomSecret_fields (p : PeerData) (s : String) :
    (addRoomSecret p s).ip = p.ip ∧ (addRoomSecret p s).publicRoomId = p.publicRoomId := by
  unfold addRoomSecret
  by_cases h : s ∈ p.roomSecrets <;> simp [h]

theorem addRoomSecret_nodup (p : PeerData) (s : String)
    (h : p.roomSecrets.Nodup) : (addRoomSecret p s).roomSecrets.Nodup := by
  unfold addRoomSecret
  by_cases hs : s ∈ p.roomSecrets
  · simpa [hs] using h
  · simp only [hs, if_neg, not_false_iff]
    show (p.roomSecrets ++ [s]).Nodup
    rw [List.nodup_append]
    exact ⟨h, List.nodup_singleton s, by simpa [List.disjoint_singleton] using hs⟩

theorem mem_removeRoomSecret (p : PeerData) (s s' : String)
    (hnd : p.roomSecrets.Nodup) :
    s' ∈ (removeRoomSecret p s).roomSecrets ↔ (s' ∈ p.roomSecrets ∧ s' ≠ s) := by
  show s' ∈ p.roomSecrets.erase s ↔ _
  rw [hnd.mem_erase_iff]
  tauto

/-- Invariant preservation under a peer update that keeps the ip,
roomSecrets and publicRoomId fields (such as setting pairKey). -/
theorem inv_updatePeer_core (cls : String → NameClass) (st : ServerState)
    (pid : String) (f : PeerData → PeerData) (h : Inv cls st)
    (hf1 : ∀ p, (f p).ip = p.ip) (hf2 : ∀ p, (f p).roomSecrets = p.roomSecrets)
    (hf3 : ∀ p, (f p).publicRoomId = p.publicRoomId) :
    Inv cls (updatePeer st pid f) := by
  have hlk : ∀ q, alookup (updatePeer st pid f).peers q =
      if pid = q then (alookup st.peers q).map f else alookup st.peers q :=
    fun q => alookup_updatePeer st pid q f
  have hmm : ∀ r q, memberOf (updatePeer st pid f).rooms r q ↔ memberOf st.rooms r q := by
    intro r q
    rw [updatePeer_rooms]
  have hget : ∀ q p', alookup (updatePeer st pid f).peers q = some p' →
      ∃ p0, alookup st.peers q = some p0 ∧ p'.ip = p0.ip ∧
        p'.roomSecrets = p0.roomSecrets ∧ p'.publicRoomId = p0.publicRoomId := by
    intro q p' hq
    rw [hlk] at hq
    by_cases hc : pid = q
    · rw [if_pos hc] at hq
      cases h0 : alookup st.peers q with
      | none => rw [h0] at hq; cases hq
      | some p0 =>
        rw [h0] at hq
        cases hq
        exact ⟨p0, rfl, hf1 p0, hf2 p0, hf3 p0⟩
    · rw [if_neg hc] at hq
      exact ⟨p', hq, rfl, rfl, rfl⟩
  refine ⟨?_, ?_, ?_, ?_, ?_, ?_, ?_, ?_, ?_⟩
  · show RoomsOK (updatePeer st pid f).rooms
    rw [updatePeer_rooms]
    exact h.ok
  · intro q p' hq
    obtain ⟨p0, h0, hip, _, _⟩ := hget q p' hq
    rw [hip]
    exact h.peerIp q p0 h0
  · intro q p' hq
    obtain ⟨p0, h0, _, hrs, _⟩ := hget q p' hq
    rw [hrs]
    exact h.peerSecrets q p0 h0
  · intro q p' hq
    obtain ⟨p0, h0, _, _, hpr⟩ := hget q p' hq
    rw [hpr]
    exact h.peerPublic q p0 h0
  · intro q p' hq
    obtain ⟨p0, h0, _, hrs, _⟩ := hget q p' hq
    rw [hrs]
    exact h.secNodup q p0 h0
  · intro q p' hq s hs
    obtain ⟨p0, h0, _, hrs, _⟩ := hget q p' hq
    rw [hrs, hmm]
    exact h.secSym q p0 h0 s hs
  · intro q p' hq r hr
    obtain ⟨p0, h0, _, _, hpr⟩ := hget q p' hq
    rw [hpr, hmm]
    exact h.pubSym q p0 h0 r hr
  · intro k e hk
    exact h.dirOK k e (by rw [← updatePeer_dir st pid f]; exact hk)
  · intro r q hm
    rw [hmm] at hm
    have := h.stored r q hm
    rw [hlk]
    by_cases hc : pid = q
    · rw [if_pos hc]
      cases h0 : alookup st.peers q with
      | none => rw [h0] at this; cases this
      | some p0 => simp
    · rw [if_neg hc]
      exact this

theorem inv_removePairKey (cls : String → NameClass) (st : ServerState)
    (k : String) (h : Inv cls st) : Inv cls (removePairKey st k) := by
  cases hd : alookup st.roomSecrets k with
  | none => simpa [removePairKey, hd] using h
  | some e =>
    simp only [removePairKey, hd]
    have h1 : Inv cls (updatePeer st e.creatorId
        (fun q => { q with pairKey := none })) :=
      inv_updatePeer_core cls st e.creatorId _ h (fun p => rfl) (fun p => rfl)
        (fun p => rfl)
    set st1 := updatePeer st e.creatorId (fun q => { q with pairKey := none })
    refine ⟨h1.ok, h1.peerIp, h1.peerSecrets, h1.peerPublic, h1.secNodup,
      ?_, ?_, ?_, h1.stored⟩
    · intro q p' hq s hs
      exact h1.secSym q p' hq s hs
    · intro q p' hq r hr
      exact h1.pubSym q p' hq r hr
    · intro k' e' hk'
      show cls e'.roomSecret = NameClass.secretClass
      rw [show ({ st1 with roomSecrets := aremove st1.roomSecrets k } :
        ServerState).roomSecrets = aremove st1.roomSecrets k from rfl,
        alookup_aremove] at hk'
      by_cases hc : k = k'
      · rw [if_pos hc] at hk'
        cases hk'
      · rw [if_neg hc] at hk'
        exact h1.dirOK k' e' hk'

theorem inv_removePairKeyOpt (cls : String → NameClass) (st : ServerState)
    (k? : Option String) (h : Inv cls st) : Inv cls (removePairKeyOpt st k?) := by
  cases k? with
  | none => exact h
  | some k => exact inv_removePairKey cls st k h

theorem inv_createPairKey (cls : String → NameClass) (st : ServerState)
    (cid rs k : String) (h : Inv cls st)
    (hrs : cls rs = NameClass.secretClass) :
    Inv cls (createPairKey st cid rs k) := by
  refine ⟨h.ok, h.peerIp, h.peerSecrets, h.peerPublic, h.secNodup, h.secSym,
    h.pubSym, ?_, h.stored⟩
  intro k' e' hk'
  show cls e'.roomSecret = NameClass.secretClass
  rw [show (createPairKey st cid rs k).roomSecrets =
    aset st.roomSecrets k ⟨rs, cid⟩ from rfl, alookup_aset] at hk'
  by_cases hc : k = k'
  · rw [if_pos hc] at hk'
    cases hk'
    exact hrs
  · rw [if_neg hc] at hk'
    exact h.dirOK k' e' hk'

theorem cls_ne {cls : String → NameClass} {a b : String} {ca cb : NameClass}
    (ha : cls a = ca) (hb : cls b = cb) (hne : ca ≠ cb) : a ≠ b := by
  intro he
  rw [he, hb] at ha
  exact hne ha.symm

theorem alookup_leaveSecretRoom_peers (st : ServerState) (pid s q : String)
    (d : Bool) :
    alookup (leaveSecretRoom st pid s d).1.peers q =
      if pid = q then (alookup st.peers q).map (fun p => removeRoomSecret p s)
      else alookup st.peers q := by
  show alookup (updatePeer (leaveRoom st pid "secret" s d).1 pid _).peers q = _
  rw [alookup_updatePeer, leaveRoom_peers]

theorem inv_joinSecretRoom (cls : String → NameClass) (st : ServerState)
    (pid s : String) (h : Inv cls st) (hs : cls s = NameClass.secretClass)
    (hpid : (alookup st.peers pid).isSome) :
    Inv cls (joinSecretRoom st pid s).1 := by
  have hmm : ∀ r q, memberOf (joinSecretRoom st pid s).1.rooms r q ↔
      ((r = s ∧ q = pid) ∨ memberOf st.rooms r q) := by
    intro r q
    rw [joinSecretRoom_rooms]
    exact memberOf_joinRoom st pid "secret" s h.ok.2 r q
  have hlk : ∀ q, alookup (joinSecretRoom st pid s).1.peers q =
      if pid = q then (alookup st.peers q).map (fun p => addRoomSecret p s)
      else alookup st.peers q := fun q => alookup_joinSecretRoom_peers st pid s q
  have hdir : (joinSecretRoom st pid s).1.roomSecrets = st.roomSecrets := by
    show (updatePeer (joinRoom st pid "secret" s).1 pid _).roomSecrets = _
    rw [updatePeer_dir, joinRoom_dir]
  have hget : ∀ q p', alookup (joinSecretRoom st pid s).1.peers q = some p' →
      ∃ p0, alookup st.peers q = some p0 ∧
        ((q = pid ∧ p' = addRoomSecret p0 s) ∨ (q ≠ pid ∧ p' = p0)) := by
    intro q p' hq
    rw [hlk] at hq
    by_cases hc : pid = q
    · rw [if_pos hc] at hq
      cases h0 : alookup st.peers q with
      | none => rw [h0] at hq; cases hq
      | some p0 =>
        rw [h0] at hq
        cases hq
        exact ⟨p0, rfl, Or.inl ⟨hc.symm, rfl⟩⟩
    · rw [if_neg hc] at hq
      exact ⟨p', hq, Or.inr ⟨fun he => hc he.symm, rfl⟩⟩
  refine ⟨RoomsOK_joinSecretRoom st pid s h.ok, ?_, ?_, ?_, ?_, ?_, ?_, ?_, ?_⟩
  · intro q p' hq
    obtain ⟨p0, h0, ⟨_, rfl⟩ | ⟨_, rfl⟩⟩ := hget q p' hq
    · rw [(addRoomSecret_fields p0 s).1]
      exact h.peerIp q p0 h0
    · exact h.peerIp q p' h0
  · intro q p' hq s' hs'
    obtain ⟨p0, h0, ⟨_, rfl⟩ | ⟨_, rfl⟩⟩ := hget q p' hq
    · rcases (mem_addRoomSecret p0 s s').mp hs' with rfl | hin
      · exact hs
      · exact h.peerSecrets q p0 h0 s' hin
    · exact h.peerSecrets q p' h0 s' hs'
  · intro q p' hq r hr
    obtain ⟨p0, h0, ⟨_, rfl⟩ | ⟨_, rfl⟩⟩ := hget q p' hq
    · rw [(addRoomSecret_fields p0 s).2] at hr
      exact h.peerPublic q p0 h0 r hr
    · exact h.peerPublic q p' h0 r hr
  · intro q p' hq
    obtain ⟨p0, h0, ⟨_, rfl⟩ | ⟨_, rfl⟩⟩ := hget q p' hq
    · exact addRoomSecret_nodup p0 s (h.secNodup q p0 h0)
    · exact h.secNodup q p' h0
  · intro q p' hq s' hs'
    obtain ⟨p0, h0, ⟨rfl, rfl⟩ | ⟨hqe, rfl⟩⟩ := hget q p' hq
    · rw [mem_addRoomSecret, hmm, h.secSym q p0 h0 s' hs']
      constructor
      · rintro (rfl | hin)
        · exact Or.inl ⟨rfl, rfl⟩
        · exact Or.inr hin
      · rintro (⟨rfl, _⟩ | hin)
        · exact Or.inl rfl
        · exact Or.inr hin
    · rw [hmm, h.secSym q p' h0 s' hs']
      constructor
      · exact Or.inr
      · rintro (⟨_, rfl⟩ | hin)
        · exact absurd rfl hqe
        · exact hin
  · intro q p' hq r hr
    have hrs : r ≠ s := cls_ne hr hs (by intro hc; cases hc)
    obtain ⟨p0, h0, ⟨rfl, rfl⟩ | ⟨hqe, rfl⟩⟩ := hget q p' hq
    · rw [(addRoomSecret_fields p0 s).2, hmm, h.pubSym q p0 h0 r hr]
      constructor
      · exact Or.inr
      · rintro (⟨rfl, _⟩ | hin)
        · exact absurd rfl hrs
        · exact hin
    · rw [hmm, h.pubSym q p' h0 r hr]
      constructor
      · exact Or.inr
      · rintro (⟨_, rfl⟩ | hin)
        · exact absurd rfl hqe
        · exact hin
  · intro k e hk
    rw [hdir] at hk
    exact h.dirOK k e hk
  · intro r q hm
    rw [hmm] at hm
    rw [hlk]
    rcases hm with ⟨_, rfl⟩ | hm
    · rw [if_pos rfl]
      cases h0 : alookup st.peers q with
      | none => rw [h0] at hpid; cases hpid
      | some p0 => simp
    · have := h.stored r q hm
      by_cases hc : pid = q
      · rw [if_pos hc]
        cases h0 : alookup st.peers q with
        | none => rw [h0] at this; cases this
        | some p0 => simp
      · rw [if_neg hc]
        exact this

theorem inv_leaveSecretRoom (cls : String → NameClass) (st : ServerState)
    (pid s : String) (d : Bool) (h : Inv cls st)
    (hs : cls s = NameClass.secretClass) :
    Inv cls (leaveSecretRoom st pid s d).1 := by
  have hmm : ∀ r q, memberOf (leaveSecretRoom st pid s d).1.rooms r q ↔
      (memberOf st.rooms r q ∧ ¬(r = s ∧ q = pid)) := by
    intro r q
    rw [leaveSecretRoom_rooms]
    exact memberOf_leaveRoom st pid "secret" s d h.ok.2 r q
  have hlk := fun q => alookup_leaveSecretRoom_peers st pid s q d
  have hdir : (leaveSecretRoom st pid s d).1.roomSecrets = st.roomSecrets := by
    show (updatePeer (leaveRoom st pid "secret" s d).1 pid _).roomSecrets = _
    rw [updatePeer_dir, leaveRoom_dir]
  have hget : ∀ q p', alookup (leaveSecretRoom st pid s d).1.peers q = some p' →
      ∃ p0, alookup st.peers q = some p0 ∧
        ((q = pid ∧ p' = removeRoomSecret p0 s) ∨ (q ≠ pid ∧ p' = p0)) := by
    intro q p' hq
    rw [hlk] at hq
    by_cases hc : pid = q
    · rw [if_pos hc] at hq
      cases h0 : alookup st.peers q with
      | none => rw [h0] at hq; cases hq
      | some p0 =>
        rw [h0] at hq
        cases hq
        exact ⟨p0, rfl, Or.inl ⟨hc.symm, rfl⟩⟩
    · rw [if_neg hc] at hq
      exact ⟨p', hq, Or.inr ⟨fun he => hc he.symm, rfl⟩⟩
  refine ⟨RoomsOK_leaveSecretRoom st pid s d h.ok, ?_, ?_, ?_, ?_, ?_, ?_, ?_, ?_⟩
  · intro q p' hq
    obtain ⟨p0, h0, ⟨_, rfl⟩ | ⟨_, rfl⟩⟩ := hget q p' hq
    · exact h.peerIp q p0 h0
    · exact h.peerIp q p' h0
  · intro q p' hq s' hs'
    obtain ⟨p0, h0, ⟨_, rfl⟩ | ⟨_, rfl⟩⟩ := hget q p' hq
    · exact h.peerSecrets q p0 h0 s'
        (List.mem_of_mem_erase hs')
    · exact h.peerSecrets q p' h0 s' hs'
  · intro q p' hq r hr
    obtain ⟨p0, h0, ⟨_, rfl⟩ | ⟨_, rfl⟩⟩ := hget q p' hq
    · exact h.peerPublic q p0 h0 r hr
    · exact h.peerPublic q p' h0 r hr
  · intro q p' hq
    obtain ⟨p0, h0, ⟨_, rfl⟩ | ⟨_, rfl⟩⟩ := hget q p' hq
    · exact (h.secNodup q p0 h0).erase s
    · exact h.secNodup q p' h0
  · intro q p' hq s' hs'
    obtain ⟨p0, h0, ⟨rfl, rfl⟩ | ⟨hqe, rfl⟩⟩ := hget q p' hq
    · rw [mem_removeRoomSecret p0 s s' (h.secNodup q p0 h0), hmm,
        h.secSym q p0 h0 s' hs']
      constructor
      · rintro ⟨hin, hne⟩
        exact ⟨hin, by simp [hne]⟩
      · rintro ⟨hin, hne⟩
        refine ⟨hin, ?_⟩
        intro he
        exact hne ⟨he, rfl⟩
    · rw [hmm, h.secSym q p' h0 s' hs']
      constructor
      · intro hin
        exact ⟨hin, fun hc => hqe hc.2⟩
      · exact fun hc => hc.1
  · intro q p' hq r hr
    have hrs : r ≠ s := cls_ne hr hs (by intro hc; cases hc)
    obtain ⟨p0, h0, ⟨rfl, rfl⟩ | ⟨hqe, rfl⟩⟩ := hget q p' hq
    · show p0.publicRoomId = some r ↔ _
      rw [hmm, h.pubSym q p0 h0 r hr]
      constructor
      · intro hin
        exact ⟨hin, fun hc => hrs hc.1⟩
      · exact fun hc => hc.1
    · rw [hmm, h.pubSym q p' h0 r hr]
      constructor
      · intro hin
        exact ⟨hin, fun hc => hqe hc.2⟩
      · exact fun hc => hc.1
  · intro k e hk
    rw [hdir] at hk
    exact h.dirOK k e hk
  · intro r q hm
    rw [hmm] at hm
    have := h.stored r q hm.1
    rw [hlk]
    by_cases hc : pid = q
    · rw [if_pos hc]
      cases h0 : alookup st.peers q with
      | none => rw [h0] at this; cases this
      | some p0 => simp
    · rw [if_neg hc]
      exact this

theorem inv_joinIpRoom (cls : String → NameClass) (st : ServerState)
    (pid : String) (h : Inv cls st) : Inv cls (joinIpRoom st pid).1 := by
  cases hp : alookup st.peers pid with
  | none => simpa [joinIpRoom, hp] using h
  | some p =>
    simp only [joinIpRoom, hp]
    have hip : cls p.ip = NameClass.ipClass := h.peerIp pid p hp
    have hmm : ∀ r q, memberOf (joinRoom st pid "ip" p.ip).1.rooms r q ↔
        ((r = p.ip ∧ q = pid) ∨ memberOf st.rooms r q) :=
      memberOf_joinRoom st pid "ip" p.ip h.ok.2
    have hpe : (joinRoom st pid "ip" p.ip).1.peers = st.peers :=
      joinRoom_peers st pid "ip" p.ip
    have hdir : (joinRoom st pid "ip" p.ip).1.roomSecrets = st.roomSecrets :=
      joinRoom_dir st pid "ip" p.ip
    refine ⟨RoomsOK_joinRoom st pid "ip" p.ip h.ok, ?_, ?_, ?_, ?_, ?_, ?_, ?_, ?_⟩
    · intro q p' hq
      rw [hpe] at hq
      exact h.peerIp q p' hq
    · intro q p' hq
      rw [hpe] at hq
      exact h.peerSecrets q p' hq
    · intro q p' hq
      rw [hpe] at hq
      exact h.peerPublic q p' hq
    · intro q p' hq
      rw [hpe] at hq
      exact h.secNodup q p' hq
    · intro q p' hq s hs
      rw [hpe] at hq
      rw [hmm, h.secSym q p' hq s hs]
      have hsip : s ≠ p.ip := cls_ne hs hip (by intro hc; cases hc)
      constructor
      · exact Or.inr
      · rintro (⟨rfl, _⟩ | hin)
        · exact absurd rfl hsip
        · exact hin
    · intro q p' hq r hr
      rw [hpe] at hq
      rw [hmm, h.pubSym q p' hq r hr]
      have hrip : r ≠ p.ip := cls_ne hr hip (by intro hc; cases hc)
      constructor
      · exact Or.inr
      · rintro (⟨rfl, _⟩ | hin)
        · exact absurd rfl hrip
        · exact hin
    · intro k e hk
      rw [hdir] at hk
      exact h.dirOK k e hk
    · intro r q hm
      rw [hpe]
      rcases (hmm r q).mp hm with ⟨_, rfl⟩ | hm2
      · rw [hp]; rfl
      · exact h.stored r q hm2

theorem inv_leaveIpRoom (cls : String → NameClass) (st : ServerState)
    (pid : String) (d : Bool) (h : Inv cls st) :
    Inv cls (leaveIpRoom st pid d).1 := by
  cases hp : alookup st.peers pid with
  | none => simpa [leaveIpRoom, hp] using h
  | some p =>
    simp only [leaveIpRoom, hp]
    have hip : cls p.ip = NameClass.ipClass := h.peerIp pid p hp
    have hmm : ∀ r q, memberOf (leaveRoom st pid "ip" p.ip d).1.rooms r q ↔
        (memberOf st.rooms r q ∧ ¬(r = p.ip ∧ q = pid)) :=
      memberOf_leaveRoom st pid "ip" p.ip d h.ok.2
    have hpe : (leaveRoom st pid "ip" p.ip d).1.peers = st.peers :=
      leaveRoom_peers st pid "ip" p.ip d
    have hdir : (leaveRoom st pid "ip" p.ip d).1.roomSecrets = st.roomSecrets :=
      leaveRoom_dir st pid "ip" p.ip d
    refine ⟨RoomsOK_leaveRoom st pid "ip" p.ip d h.ok, ?_, ?_, ?_, ?_, ?_, ?_, ?_, ?_⟩
    · intro q p' hq
      rw [hpe] at hq
      exact h.peerIp q p' hq
    · intro q p' hq
      rw [hpe] at hq
      exact h.peerSecrets q p' hq
    · intro q p' hq
      rw [hpe] at hq
      exact h.peerPublic q p' hq
    · intro q p' hq
      rw [hpe] at hq
      exact h.secNodup q p' hq
    · intro q p' hq s hs
      rw [hpe] at hq
      rw [hmm, h.secSym q p' hq s hs]
      have hsip : s ≠ p.ip := cls_ne hs hip (by intro hc; cases hc)
      constructor
      · intro hin
        exact ⟨hin, fun hc => hsip hc.1⟩
      · exact fun hc => hc.1
    · intro q p' hq r hr
      rw [hpe] at hq
      rw [hmm, h.pubSym q p' hq r hr]
      have hrip : r ≠ p.ip := cls_ne hr hip (by intro hc; cases hc)
      constructor
      · intro hin
        exact ⟨hin, fun hc => hrip hc.1⟩
      · exact fun hc => hc.1
    · intro k e hk
      rw [hdir] at hk
      exact h.dirOK k e hk
    · intro r q hm
      rw [hpe]
      exact h.stored r q ((hmm r q).mp hm).1

theorem inv_leavePublicRoom (cls : String → NameClass) (st : ServerState)
    (pid : String) (d : Bool) (h : Inv cls st) :
    Inv cls (leavePublicRoom st pid d).1 := by
  cases hp : alookup st.peers pid with
  | none => simpa [leavePublicRoom, hp] using h
  | some p =>
    cases hpr : p.publicRoomId with
    | none => simpa [leavePublicRoom, hp, hpr] using h
    | some r0 =>
      simp only [leavePublicRoom, hp, hpr]
      have hr0 : cls r0 = NameClass.publicClass := h.peerPublic pid p hp r0 hpr
      have hmm : ∀ r q,
          memberOf (updatePeer (leaveRoom st pid "public-id" r0 d).1 pid
            (fun q0 => { q0 with publicRoomId := none })).rooms r q ↔
          (memberOf st.rooms r q ∧ ¬(r = r0 ∧ q = pid)) := by
        intro r q
        rw [updatePeer_rooms]
        exact memberOf_leaveRoom st pid "public-id" r0 d h.ok.2 r q
      have hlk : ∀ q,
          alookup (updatePeer (leaveRoom st pid "public-id" r0 d).1 pid
            (fun q0 => { q0 with publicRoomId := none })).peers q =
          if pid = q
          then (alookup st.peers q).map (fun q0 => { q0 with publicRoomId := none })
          else alookup st.peers q := by
        intro q
        rw [alookup_updatePeer, leaveRoom_peers]
      have hdir :
          (updatePeer (leaveRoom st pid "public-id" r0 d).1 pid
            (fun q0 => { q0 with publicRoomId := none })).roomSecrets =
          st.roomSecrets := by
        rw [updatePeer_dir, leaveRoom_dir]
      have hget : ∀ q p',
          alookup (updatePeer (leaveRoom st pid "public-id" r0 d).1 pid
            (fun q0 => { q0 with publicRoomId := none })).peers q = some p' →
          ∃ p0, alookup st.peers q = some p0 ∧
            ((q = pid ∧ p' = { p0 with publicRoomId := none }) ∨
              (q ≠ pid ∧ p' = p0)) := by
        intro q p' hq
        rw [hlk] at hq
        by_cases hc : pid = q
        · rw [if_pos hc] at hq
          cases h0 : alookup st.peers q with
          | none => rw [h0] at hq; cases hq
          | some p0 =>
            rw [h0] at hq
            cases hq
            exact ⟨p0, rfl, Or.inl ⟨hc.symm, rfl⟩⟩
        · rw [if_neg hc] at hq
          exact ⟨p', hq, Or.inr ⟨fun he => hc he.symm, rfl⟩⟩
      have hok : RoomsOK (updatePeer (leaveRoom st pid "public-id" r0 d).1 pid
          (fun q0 => { q0 with publicRoomId := none })).rooms := by
        rw [updatePeer_rooms]
        exact RoomsOK_leaveRoom st pid "public-id" r0 d h.ok
      refine ⟨hok, ?_, ?_, ?_, ?_, ?_, ?_, ?_, ?_⟩
      · intro q p' hq
        obtain ⟨p0, h0, ⟨_, rfl⟩ | ⟨_, rfl⟩⟩ := hget q p' hq
        · exact h.peerIp q p0 h0
        · exact h.peerIp q p' h0
      · intro q p' hq s' hs'
        obtain ⟨p0, h0, ⟨_, rfl⟩ | ⟨_, rfl⟩⟩ := hget q p' hq
        · exact h.peerSecrets q p0 h0 s' hs'
        · exact h.peerSecrets q p' h0 s' hs'
      · intro q p' hq r hr
        obtain ⟨p0, h0, ⟨_, rfl⟩ | ⟨_, rfl⟩⟩ := hget q p' hq
        · cases hr
        · exact h.peerPublic q p' h0 r hr
      · intro q p' hq
        obtain ⟨p0, h0, ⟨_, rfl⟩ | ⟨_, rfl⟩⟩ := hget q p' hq
        · exact h.secNodup q p0 h0
        · exact h.secNodup q p' h0
      · intro q p' hq s' hs'
        have hsr0 : s' ≠ r0 := cls_ne hs' hr0 (by intro hc; cases hc)
        obtain ⟨p0, h0, ⟨rfl, rfl⟩ | ⟨hqe, rfl⟩⟩ := hget q p' hq
        · show s' ∈ p0.roomSecrets ↔ _
          rw [hmm, h.secSym q p0 h0 s' hs']
          constructor
          · intro hin
            exact ⟨hin, fun hc => hsr0 hc.1⟩
          · exact fun hc => hc.1
        · rw [hmm, h.secSym q p' h0 s' hs']
          constructor
          · intro hin
            exact ⟨hin, fun hc => hqe hc.2⟩
          · exact fun hc => hc.1
      · intro q p' hq r hr
        obtain ⟨p0, h0, ⟨rfl, rfl⟩ | ⟨hqe, rfl⟩⟩ := hget q p' hq
        · show (none : Option String) = some r ↔ _
          rw [hmm]
          constructor
          · intro hc
            cases hc
          · rintro ⟨hmem, hne⟩
            exfalso
            by_cases hrr : r = r0
            · exact hne ⟨hrr, rfl⟩
            · have h1 := (h.pubSym q p0 h0 r hr).mpr hmem
              have hpp : p0 = p := by
                rw [h0] at hp
                exact Option.some.inj hp
              apply hrr
              rw [hpp, hpr] at h1
              injection h1 with h2
              exact h2.symm
        · rw [hmm, h.pubSym q p' h0 r hr]
          constructor
          · intro hin
            exact ⟨hin, fun hc => hqe hc.2⟩
          · exact fun hc => hc.1
      · intro k e hk
        rw [hdir] at hk
        exact h.dirOK k e hk
      · intro r q hm
        rw [hmm] at hm
        have := h.stored r q hm.1
        rw [hlk]
        by_cases hc : pid = q
        · rw [if_pos hc]
          cases h0 : alookup st.peers q with
          | none => rw [h0] at this; cases this
          | some p0 => simp
        · rw [if_neg hc]
          exact this

theorem leavePublicRoom_peers_isSome (st : ServerState) (pid : String)
    (d : Bool) (q : String) :
    (alookup (leavePublicRoom st pid d).1.peers q).isSome =
      (alookup st.peers q).isSome := by
  cases hp : alookup st.peers pid with
  | none => simp [leavePublicRoom, hp]
  | some p =>
    cases hpr : p.publicRoomId with
    | none => simp [leavePublicRoom, hp, hpr]
    | some r0 =>
      simp only [leavePublicRoom, hp, hpr]
      show (alookup (updatePeer (leaveRoom st pid "public-id" r0 d).1 pid _).peers
        q).isSome = _
      rw [alookup_updatePeer, leaveRoom_peers]
      by_cases hc : pid = q
      · rw [if_pos hc]
        cases alookup st.peers q <;> rfl
      · rw [if_neg hc]

theorem leavePublicRoom_pub_none (st : ServerState) (pid : String) (d : Bool)
    (p1 : PeerData)
    (h1 : alookup (leavePublicRoom st pid d).1.peers pid = some p1)
    (hpid : (alookup st.peers pid).isSome) :
    p1.publicRoomId = none := by
  cases hp : alookup st.peers pid with
  | none => rw [hp] at hpid; cases hpid
  | some p =>
    cases hpr : p.publicRoomId with
    | none =>
      rw [show (leavePublicRoom st pid d).1 = st by simp [leavePublicRoom, hp, hpr],
        hp] at h1
      cases h1
      exact hpr
    | some r0 =>
      rw [show (leavePublicRoom st pid d).1 =
          updatePeer (leaveRoom st pid "public-id" r0 d).1 pid
            (fun q0 => { q0 with publicRoomId := none }) by
        simp [leavePublicRoom, hp, hpr]] at h1
      rw [alookup_updatePeer, leaveRoom_peers, if_pos rfl, hp] at h1
      cases h1
      rfl

theorem inv_joinPublicRoom (cls : String → NameClass) (st : ServerState)
    (pid rid : String) (h : Inv cls st)
    (hrid : cls rid = NameClass.publicClass)
    (hpid : (alookup st.peers pid).isSome) :
    Inv cls (joinPublicRoom st pid rid).1 := by
  have h1 : Inv cls (leavePublicRoom st pid false).1 :=
    inv_leavePublicRoom cls st pid false h
  have hpid1 : (alookup (leavePublicRoom st pid false).1.peers pid).isSome := by
    rw [leavePublicRoom_peers_isSome]
    exact hpid
  obtain ⟨p1, hp1⟩ : ∃ p1,
      alookup (leavePublicRoom st pid false).1.peers pid = some p1 := by
    cases hl : alookup (leavePublicRoom st pid false).1.peers pid with
    | none => rw [hl] at hpid1; cases hpid1
    | some p1 => exact ⟨p1, rfl⟩
  have hp1pub : p1.publicRoomId = none :=
    leavePublicRoom_pub_none st pid false p1 hp1 hpid
  set st1 := (leavePublicRoom st pid false).1 with hst1
  have hmm : ∀ r q, memberOf (joinPublicRoom st pid rid).1.rooms r q ↔
      ((r = rid ∧ q = pid) ∨ memberOf st1.rooms r q) := by
    intro r q
    show memberOf (updatePeer (joinRoom st1 pid "public-id" rid).1 pid _).rooms r q ↔ _
    rw [updatePeer_rooms]
    exact memberOf_joinRoom st1 pid "public-id" rid h1.ok.2 r q
  have hlk : ∀ q, alookup (joinPublicRoom st pid rid).1.peers q =
      if pid = q
      then (alookup st1.peers q).map (fun q0 => { q0 with publicRoomId := some rid })
      else alookup st1.peers q := by
    intro q
    show alookup (updatePeer (joinRoom st1 pid "public-id" rid).1 pid _).peers q = _
    rw [alookup_updatePeer, joinRoom_peers]
  have hdir : (joinPublicRoom st pid rid).1.roomSecrets = st1.roomSecrets := by
    show (updatePeer (joinRoom st1 pid "public-id" rid).1 pid _).roomSecrets = _
    rw [updatePeer_dir, joinRoom_dir]
  have hget : ∀ q p', alookup (joinPublicRoom st pid rid).1.peers q = some p' →
      ∃ p0, alookup st1.peers q = some p0 ∧
        ((q = pid ∧ p' = { p0 with publicRoomId := some rid }) ∨
          (q ≠ pid ∧ p' = p0)) := by
    intro q p' hq
    rw [hlk] at hq
    by_cases hc : pid = q
    · rw [if_pos hc] at hq
      cases h0 : alookup st1.peers q with
      | none => rw [h0] at hq; cases hq
      | some p0 =>
        rw [h0] at hq
        cases hq
        exact ⟨p0, rfl, Or.inl ⟨hc.symm, rfl⟩⟩
    · rw [if_neg hc] at hq
      exact ⟨p', hq, Or.inr ⟨fun he => hc he.symm, rfl⟩⟩
  have hok : RoomsOK (joinPublicRoom st pid rid).1.rooms := by
    show RoomsOK (updatePeer (joinRoom st1 pid "public-id" rid).1 pid _).rooms
    rw [updatePeer_rooms]
    exact RoomsOK_joinRoom st1 pid "public-id" rid h1.ok
  refine ⟨hok, ?_, ?_, ?_, ?_, ?_, ?_, ?_, ?_⟩
  · intro q p' hq
    obtain ⟨p0, h0, ⟨_, rfl⟩ | ⟨_, rfl⟩⟩ := hget q p' hq
    · exact h1.peerIp q p0 h0
    · exact h1.peerIp q p' h0
  · intro q p' hq s' hs'
    obtain ⟨p0, h0, ⟨_, rfl⟩ | ⟨_, rfl⟩⟩ := hget q p' hq
    · exact h1.peerSecrets q p0 h0 s' hs'
    · exact h1.peerSecrets q p' h0 s' hs'
  · intro q p' hq r hr
    obtain ⟨p0, h0, ⟨_, rfl⟩ | ⟨_, rfl⟩⟩ := hget q p' hq
    · cases hr
      exact hrid
    · exact h1.peerPublic q p' h0 r hr
  · intro q p' hq
    obtain ⟨p0, h0, ⟨_, rfl⟩ | ⟨_, rfl⟩⟩ := hget q p' hq
    · exact h1.secNodup q p0 h0
    · exact h1.secNodup q p' h0
  · intro q p' hq s' hs'
    have hsr : s' ≠ rid := cls_ne hs' hrid (by intro hc; cases hc)
    obtain ⟨p0, h0, ⟨rfl, rfl⟩ | ⟨hqe, rfl⟩⟩ := hget q p' hq
    · show s' ∈ p0.roomSecrets ↔ _
      rw [hmm, h1.secSym q p0 h0 s' hs']
      constructor
      · exact Or.inr
      · rintro (⟨hc, _⟩ | hin)
        · exact absurd hc hsr
        · exact hin
    · rw [hmm, h1.secSym q p' h0 s' hs']
      constructor
      · exact Or.inr
      · rintro (⟨_, hc⟩ | hin)
        · exact absurd hc hqe
        · exact hin
  · intro q p' hq r hr
    obtain ⟨p0, h0, ⟨rfl, rfl⟩ | ⟨hqe, rfl⟩⟩ := hget q p' hq
    · show some rid = some r ↔ _
      rw [hmm]
      have hp0 : p0 = p1 := by
        rw [h0] at hp1
        exact Option.some.inj hp1
      constructor
      · intro hc
        exact Or.inl ⟨(Option.some.inj hc).symm, rfl⟩
      · rintro (⟨rfl, _⟩ | hin)
        · rfl
        · exfalso
          have h2 := (h1.pubSym q p0 h0 r hr).mpr hin
          rw [hp0, hp1pub] at h2
          cases h2
    · rw [hmm, h1.pubSym q p' h0 r hr]
      constructor
      · exact Or.inr
      · rintro (⟨_, hc⟩ | hin)
        · exact absurd hc hqe
        · exact hin
  · intro k e hk
    rw [hdir] at hk
    exact h1.dirOK k e hk
  · intro r q hm
    rw [hmm] at hm
    rw [hlk]
    rcases hm with ⟨_, rfl⟩ | hm2
    · rw [if_pos rfl, hp1]
      rfl
    · have := h1.stored r q hm2
      by_cases hc : pid = q
      · rw [if_pos hc]
        cases h0 : alookup st1.peers q with
        | none => rw [h0] at this; cases this
        | some p0 => simp
      · rw [if_neg hc]
        exact this

theorem joinSecretRoom_peers_isSome (st : ServerState) (pid s q : String) :
    (alookup (joinSecretRoom st pid s).1.peers q).isSome =
      (alookup st.peers q).isSome := by
  rw [alookup_joinSecretRoom_peers]
  by_cases hc : pid = q
  · rw [if_pos hc]
    cases alookup st.peers q <;> rfl
  · rw [if_neg hc]

theorem inv_joinSecretRooms (cls : String → NameClass) (ss : List String) :
    ∀ (st : ServerState) (pid : String), Inv cls st →
      (∀ s ∈ ss, cls s = NameClass.secretClass) →
      (alookup st.peers pid).isSome →
      Inv cls (joinSecretRooms st pid ss).1 := by
  induction ss with
  | nil => intro st pid h _ _; exact h
  | cons s t ih =>
    intro st pid h hcls hpid
    show Inv cls (joinSecretRooms (joinSecretRoom st pid s).1 pid t).1
    exact ih (joinSecretRoom st pid s).1 pid
      (inv_joinSecretRoom cls st pid s h (hcls s (by simp)) hpid)
      (fun s2 hs2 => hcls s2 (by simp [hs2]))
      (by rw [joinSecretRoom_peers_isSome]; exact hpid)

theorem inv_leaveAllSecretRoomsAux (cls : String → NameClass) (pid : String)
    (d : Bool) (fuel : Nat) :
    ∀ (st : ServerState) (i : Nat), Inv cls st →
      Inv cls (leaveAllSecretRoomsAux pid d fuel st i).1 := by
  induction fuel with
  | zero => intro st i h; exact h
  | succ n ih =>
    intro st i h
    unfold leaveAllSecretRoomsAux
    cases hp : alookup st.peers pid with
    | none => exact h
    | some p =>
      by_cases hi : i < p.roomSecrets.length
      · simp only [hp, hi, dif_pos]
        have hs : cls (p.roomSecrets.get ⟨i, hi⟩) = NameClass.secretClass :=
          h.peerSecrets pid p hp _ (p.roomSecrets.get_mem _ _)
        exact ih _ _ (inv_leaveSecretRoom cls st pid _ d h hs)
      · simp only [hp, hi, dif_neg, not_false_iff]
        exact h

theorem inv_leaveAllSecretRooms (cls : String → NameClass) (st : ServerState)
    (pid : String) (d : Bool) (h : Inv cls st) :
    Inv cls (leaveAllSecretRooms st pid d).1 := by
  unfold leaveAllSecretRooms
  cases hp : alookup st.peers pid with
  | none => exact h
  | some p => exact inv_leaveAllSecretRoomsAux cls pid d _ st 0 h

theorem inv_deleteSecretRoomLoop (cls : String → NameClass) (s : String)
    (hs : cls s = NameClass.secretClass) (ms : List String) :
    ∀ (st : ServerState), Inv cls st →
      Inv cls (deleteSecretRoomLoop s st ms).1 := by
  induction ms with
  | nil => intro st h; exact h
  | cons m t ih =>
    intro st h
    exact ih _ (inv_leaveSecretRoom cls st m s true h hs)

theorem inv_deleteSecretRoom (cls : String → NameClass) (st : ServerState)
    (s : String) (hs : cls s = NameClass.secretClass) (h : Inv cls st) :
    Inv cls (deleteSecretRoom st s).1 := by
  unfold deleteSecretRoom
  cases hm : alookup st.rooms s with
  | none => exact h
  | some mems => exact inv_deleteSecretRoomLoop cls s hs mems st h

theorem inv_onRoomSecretsDeleted (cls : String → NameClass) (ss : List String) :
    ∀ (st : ServerState) (pid : String), Inv cls st →
      (∀ s ∈ ss, cls s = NameClass.secretClass) →
      Inv cls (onRoomSecretsDeleted st pid ss).1 := by
  induction ss with
  | nil => intro st pid h _; exact h
  | cons s t ih =>
    intro st pid h hcls
    show Inv cls (onRoomSecretsDeleted (deleteSecretRoom st s).1 pid t).1
    exact ih _ pid (inv_deleteSecretRoom cls st s (hcls s (by simp)) h)
      (fun s2 hs2 => hcls s2 (by simp [hs2]))

theorem regenerateLoop_dir (oldS newS : String) (ms : List String) :
    ∀ (st : ServerState),
      (regenerateLoop oldS newS st ms).1.roomSecrets = st.roomSecrets := by
  induction ms with
  | nil => intro st; rfl
  | cons m t ih =>
    intro st
    show (regenerateLoop oldS newS (updatePeer st m _) t).1.roomSecrets = _
    rw [ih, updatePeer_dir]

theorem regenerateLoop_peers (oldS newS : String) (ms : List String) :
    ∀ (st : ServerState) (q : String), ms.Nodup →
      alookup (regenerateLoop oldS newS st ms).1.peers q =
        (if q ∈ ms
        then (alookup st.peers q).map (fun p => removeRoomSecret p oldS)
        else alookup st.peers q) := by
  induction ms with
  | nil => intro st q _; rw [if_neg (List.not_mem_nil q)]; rfl
  | cons m t ih =>
    intro st q hnd
    have hmt : m ∉ t := (List.nodup_cons.mp hnd).1
    have hndt : t.Nodup := (List.nodup_cons.mp hnd).2
    show alookup (regenerateLoop oldS newS
      (updatePeer st m (fun p => removeRoomSecret p oldS)) t).1.peers q = _
    rw [ih _ q hndt]
    by_cases hqt : q ∈ t
    · rw [if_pos hqt, if_pos (List.mem_cons.mpr (Or.inr hqt)), alookup_updatePeer]
      by_cases hqm : m = q
      · exact absurd (hqm ▸ hqt) hmt
      · rw [if_neg hqm]
    · rw [if_neg hqt, alookup_updatePeer]
      by_cases hqm : m = q
      · rw [if_pos hqm, if_pos (List.mem_cons.mpr (Or.inl hqm.symm))]
      · rw [if_neg hqm, if_neg ?hnm]
        case hnm =>
          intro hc
          rcases List.mem_cons.mp hc with rfl | hc2
          · exact hqm rfl
          · exact hqt hc2

theorem inv_onRegenerateRoomSecret (cls : String → NameClass) (st : ServerState)
    (pid oldS newS : String) (h : Inv cls st)
    (holdS : cls oldS = NameClass.secretClass) :
    Inv cls (onRegenerateRoomSecret st pid oldS newS).1 := by
  cases hp : alookup st.peers pid with
  | none => simpa [onRegenerateRoomSecret, hp] using h
  | some p0 =>
    simp only [onRegenerateRoomSecret, hp]
    set mems := (alookup st.rooms oldS).getD [] with hmems
    have hndm : mems.Nodup := by
      rw [hmems]
      cases hmo : alookup st.rooms oldS with
      | none => exact List.nodup_nil
      | some ms => exact h.ok.2 oldS ms hmo
    have hmemiff : ∀ q, q ∈ mems ↔ memberOf st.rooms oldS q := fun q => Iff.rfl
    have hlk : ∀ q,
        alookup ({ (regenerateLoop oldS newS st mems).1 with
          rooms := aremove (regenerateLoop oldS newS st mems).1.rooms oldS } :
            ServerState).peers q =
        (if q ∈ mems
        then (alookup st.peers q).map (fun p => removeRoomSecret p oldS)
        else alookup st.peers q) := by
      intro q
      show alookup (regenerateLoop oldS newS st mems).1.peers q = _
      exact regenerateLoop_peers oldS newS mems st q hndm
    have hmm : ∀ r q,
        memberOf ({ (regenerateLoop oldS newS st mems).1 with
          rooms := aremove (regenerateLoop oldS newS st mems).1.rooms oldS } :
            ServerState).rooms r q ↔
        (r ≠ oldS ∧ memberOf st.rooms r q) := by
      intro r q
      show memberOf (aremove (regenerateLoop oldS newS st mems).1.rooms oldS) r q ↔ _
      rw [regenerateLoop_rooms]
      exact memberOf_aremove st.rooms oldS r q
    have hdir :
        ({ (regenerateLoop oldS newS st mems).1 with
          rooms := aremove (regenerateLoop oldS newS st mems).1.rooms oldS } :
            ServerState).roomSecrets = st.roomSecrets := by
      show (regenerateLoop oldS newS st mems).1.roomSecrets = _
      exact regenerateLoop_dir oldS newS mems st
    have hget : ∀ q p',
        alookup ({ (regenerateLoop oldS newS st mems).1 with
          rooms := aremove (regenerateLoop oldS newS st mems).1.rooms oldS } :
            ServerState).peers q = some p' →
        ∃ p1, alookup st.peers q = some p1 ∧
          ((q ∈ mems ∧ p' = removeRoomSecret p1 oldS) ∨ (q ∉ mems ∧ p' = p1)) := by
      intro q p' hq
      rw [hlk] at hq
      by_cases hc : q ∈ mems
      · rw [if_pos hc] at hq
        cases h0 : alookup st.peers q with
        | none => rw [h0] at hq; cases hq
        | some p1 =>
          rw [h0] at hq
          cases hq
          exact ⟨p1, rfl, Or.inl ⟨hc, rfl⟩⟩
      · rw [if_neg hc] at hq
        exact ⟨p', hq, Or.inr ⟨hc, rfl⟩⟩
    have hok : RoomsOK ({ (regenerateLoop oldS newS st mems).1 with
        rooms := aremove (regenerateLoop oldS newS st mems).1.rooms oldS } :
          ServerState).rooms := by
      show RoomsOK (aremove (regenerateLoop oldS newS st mems).1.rooms oldS)
      rw [regenerateLoop_rooms]
      exact RoomsOK_aremove st.rooms oldS h.ok
    refine ⟨hok, ?_, ?_, ?_, ?_, ?_, ?_, ?_, ?_⟩
    · intro q p' hq
      obtain ⟨p1, h1, ⟨_, rfl⟩ | ⟨_, rfl⟩⟩ := hget q p' hq
      · exact h.peerIp q p1 h1
      · exact h.peerIp q p' h1
    · intro q p' hq s' hs'
      obtain ⟨p1, h1, ⟨_, rfl⟩ | ⟨_, rfl⟩⟩ := hget q p' hq
      · exact h.peerSecrets q p1 h1 s' (List.mem_of_mem_erase hs')
      · exact h.peerSecrets q p' h1 s' hs'
    · intro q p' hq r hr
      obtain ⟨p1, h1, ⟨_, rfl⟩ | ⟨_, rfl⟩⟩ := hget q p' hq
      · exact h.peerPublic q p1 h1 r hr
      · exact h.peerPublic q p' h1 r hr
    · intro q p' hq
      obtain ⟨p1, h1, ⟨_, rfl⟩ | ⟨_, rfl⟩⟩ := hget q p' hq
      · exact (h.secNodup q p1 h1).erase oldS
      · exact h.secNodup q p' h1
    · intro q p' hq s' hs'
      obtain ⟨p1, h1, ⟨hqm, rfl⟩ | ⟨hqm, rfl⟩⟩ := hget q p' hq
      · rw [mem_removeRoomSecret p1 oldS s' (h.secNodup q p1 h1), hmm,
          h.secSym q p1 h1 s' hs']
        constructor
        · rintro ⟨hin, hne⟩
          exact ⟨hne, hin⟩
        · rintro ⟨hne, hin⟩
          exact ⟨hin, hne⟩
      · rw [hmm, h.secSym q p' h1 s' hs']
        by_cases hso : s' = oldS
        · subst hso
          constructor
          · intro hin
            exact absurd ((hmemiff q).mpr hin) hqm
          · rintro ⟨hne, _⟩
            exact absurd rfl hne
        · constructor
          · intro hin
            exact ⟨hso, hin⟩
          · exact fun hc => hc.2
    · intro q p' hq r hr
      have hro : r ≠ oldS := cls_ne hr holdS (by intro hc; cases hc)
      obtain ⟨p1, h1, ⟨hqm, rfl⟩ | ⟨hqm, rfl⟩⟩ := hget q p' hq
      · show p1.publicRoomId = some r ↔ _
        rw [hmm, h.pubSym q p1 h1 r hr]
        constructor
        · intro hin
          exact ⟨hro, hin⟩
        · exact fun hc => hc.2
      · rw [hmm, h.pubSym q p' h1 r hr]
        constructor
        · intro hin
          exact ⟨hro, hin⟩
        · exact fun hc => hc.2
    · intro k e hk
      rw [hdir] at hk
      exact h.dirOK k e hk
    · intro r q hm
      rw [hmm] at hm
      have := h.stored r q hm.2
      rw [hlk]
      by_cases hc : q ∈ mems
      · rw [if_pos hc]
        cases h0 : alookup st.peers q with
        | none => rw [h0] at this; cases this
        | some p1 => simp
      · rw [if_neg hc]
        exact this

theorem removePairKey_peers_isSome (st : ServerState) (k q : String) :
    (alookup (removePairKey st k).peers q).isSome =
      (alookup st.peers q).isSome := by
  rw [alookup_removePairKey_peers]
  cases h : alookup st.roomSecrets k with
  | none => rfl
  | some e =>
    show (if e.creatorId = q
      then (alookup st.peers q).map (fun p => { p with pairKey := none })
      else alookup st.peers q).isSome = _
    by_cases hc : e.creatorId = q
    · rw [if_pos hc]
      cases alookup st.peers q <;> rfl
    · rw [if_neg hc]

theorem removePairKeyOpt_peers_isSome (st : ServerState) (k? : Option String)
    (q : String) :
    (alookup (removePairKeyOpt st k?).peers q).isSome =
      (alookup st.peers q).isSome := by
  cases k? with
  | none => rfl
  | some k => exact removePairKey_peers_isSome st k q

theorem inv_disconnect (cls : String → NameClass) (st : ServerState)
    (pid : String) (h : Inv cls st) : Inv cls (disconnect st pid).1 := by
  cases hp : alookup st.peers pid with
  | none => simpa [disconnect, hp] using h
  | some p =>
    simp only [disconnect, hp]
    apply inv_leavePublicRoom
    apply inv_leaveAllSecretRooms
    apply inv_leaveIpRoom
    exact inv_updatePeer_core cls (removePairKeyOpt st p.pairKey) pid
      (fun q => { q with pairKey := none })
      (inv_removePairKeyOpt cls st p.pairKey h) (fun _ => rfl) (fun _ => rfl)
      (fun _ => rfl)

theorem inv_onRoomSecrets (cls : String → NameClass) (st : ServerState)
    (pid : String) (ss : List String) (h : Inv cls st)
    (hwf : ∀ s ∈ ss.filter isSecretShaped, cls s = NameClass.secretClass) :
    Inv cls (onRoomSecrets st pid ss).1 := by
  cases hp : alookup st.peers pid with
  | none => simpa [onRoomSecrets, hp] using h
  | some p =>
    simp only [onRoomSecrets, hp]
    exact inv_joinSecretRooms cls (ss.filter isSecretShaped) st pid h hwf
      (by rw [hp]; rfl)

theorem inv_onPairDeviceInitiate (cls : String → NameClass) (st : ServerState)
    (pid rs k : String) (h : Inv cls st)
    (hrs : cls rs = NameClass.secretClass) :
    Inv cls (onPairDeviceInitiate st pid rs k).1 := by
  cases hp : alookup st.peers pid with
  | none => simpa [onPairDeviceInitiate, hp] using h
  | some p =>
    simp only [onPairDeviceInitiate, hp]
    have hinv1 : Inv cls (updatePeer
        (removePairKeyOpt (createPairKey st pid rs k) p.pairKey) pid
        (fun q => { q with pairKey := some k })) :=
      inv_updatePeer_core cls
        (removePairKeyOpt (createPairKey st pid rs k) p.pairKey) pid
        (fun q => { q with pairKey := some k })
        (inv_removePairKeyOpt cls _ p.pairKey
          (inv_createPairKey cls st pid rs k h hrs))
        (fun _ => rfl) (fun _ => rfl) (fun _ => rfl)
    have hsome : (alookup (updatePeer
        (removePairKeyOpt (createPairKey st pid rs k) p.pairKey) pid
        (fun q => { q with pairKey := some k })).peers pid).isSome = true := by
      rw [alookup_updatePeer, if_pos rfl]
      have h1 : (alookup (removePairKeyOpt (createPairKey st pid rs k)
          p.pairKey).peers pid).isSome = true := by
        rw [removePairKeyOpt_peers_isSome]
        show (alookup st.peers pid).isSome = true
        rw [hp]
        rfl
      cases h0 : alookup (removePairKeyOpt (createPairKey st pid rs k)
          p.pairKey).peers pid with
      | none => rw [h0] at h1; cases h1
      | some p1 => rfl
    exact inv_joinSecretRoom cls _ pid rs hinv1 hrs hsome

theorem inv_onPairDeviceJoin (cls : String → NameClass) (st : ServerState)
    (pid k : String) (h : Inv cls st) : Inv cls (onPairDeviceJoin st pid k).1 := by
  cases hp : alookup st.peers pid with
  | none => simpa [onPairDeviceJoin, hp] using h
  | some p =>
    by_cases hrl : p.rateLimited
    · simpa [onPairDeviceJoin, hp, hrl] using h
    · cases hk : alookup st.roomSecrets k with
      | none => simpa [onPairDeviceJoin, hp, hrl, hk] using h
      | some e =>
        by_cases hc : pid = e.creatorId
        · simp only [onPairDeviceJoin, hp, hrl, hk, Bool.false_eq_true, if_false]
          rw [if_pos hc]
          exact h
        · simp only [onPairDeviceJoin, hp, hrl, hk, Bool.false_eq_true, if_false,
            if_neg hc]
          have hsec : cls e.roomSecret = NameClass.secretClass := h.dirOK k e hk
          have h1 : Inv cls (removePairKey st k) := inv_removePairKey cls st k h
          have hpid1 : (alookup (removePairKey st k).peers pid).isSome := by
            rw [removePairKey_peers_isSome]
            show (alookup st.peers pid).isSome = true
            rw [hp]
            rfl
          have h2 : Inv cls (joinSecretRoom (removePairKey st k) pid
              e.roomSecret).1 :=
            inv_joinSecretRoom cls (removePairKey st k) pid e.roomSecret h1 hsec
              hpid1
          cases h3 : alookup (joinSecretRoom (removePairKey st k) pid
              e.roomSecret).1.peers pid with
          | none => exact h2
          | some p2 => exact inv_removePairKeyOpt cls _ p2.pairKey h2

theorem inv_onPairDeviceCancel (cls : String → NameClass) (st : ServerState)
    (pid : String) (h : Inv cls st) : Inv cls (onPairDeviceCancel st pid).1 := by
  cases hp : alookup st.peers pid with
  | none => simpa [onPairDeviceCancel, hp] using h
  | some p =>
    cases hk : p.pairKey with
    | none => simpa [onPairDeviceCancel, hp, hk] using h
    | some k0 =>
      simp only [onPairDeviceCancel, hp, hk]
      exact inv_removePairKey cls st k0 h

theorem inv_onCreatePublicRoom (cls : String → NameClass) (st : ServerState)
    (pid rid : String) (h : Inv cls st)
    (hrid : cls rid = NameClass.publicClass) :
    Inv cls (onCreatePublicRoom st pid rid).1 := by
  cases hp : alookup st.peers pid with
  | none => simpa [onCreatePublicRoom, hp] using h
  | some p =>
    simp only [onCreatePublicRoom, hp]
    exact inv_joinPublicRoom cls st pid rid h hrid (by rw [hp]; rfl)

theorem inv_onJoinPublicRoom (cls : String → NameClass) (st : ServerState)
    (pid rid : String) (ci : Bool) (h : Inv cls st)
    (hrid : cls rid = NameClass.publicClass) :
    Inv cls (onJoinPublicRoom st pid rid ci).1 := by
  cases hp : alookup st.peers pid with
  | none => simpa [onJoinPublicRoom, hp] using h
  | some p =>
    by_cases hrl : p.rateLimited
    · simpa [onJoinPublicRoom, hp, hrl] using h
    · by_cases hin : (alookup st.rooms rid).isNone && !ci
      · simpa [onJoinPublicRoom, hp, hrl, hin] using h
      · simp only [onJoinPublicRoom, hp, hrl, hin, Bool.false_eq_true, if_false]
        exact inv_joinPublicRoom cls (leavePublicRoom st pid false).1 pid rid
          (inv_leavePublicRoom cls st pid false h) hrid
          (by rw [leavePublicRoom_peers_isSome, hp]; rfl)

theorem inv_onLeavePublicRoom (cls : String → NameClass) (st : ServerState)
    (pid : String) (h : Inv cls st) : Inv cls (onLeavePublicRoom st pid).1 := by
  cases hp : alookup st.peers pid with
  | none => simpa [onLeavePublicRoom, hp] using h
  | some p =>
    simp only [onLeavePublicRoom, hp]
    exact inv_leavePublicRoom cls st pid true h

theorem inv_connect (cls : String → NameClass) (st : ServerState) (p : PeerData)
    (h : Inv cls st) (hrs : p.roomSecrets = []) (hpub : p.publicRoomId = none)
    (hip : cls p.ip = NameClass.ipClass) :
    Inv cls (match alookup st.peers p.id with
      | some _ => (st, ([] : Out))
      | none => ({ st with peers := aset st.peers p.id p }, ([] : Out))).1 := by
  cases hnew : alookup st.peers p.id with
  | some _ => exact h
  | none =>
    have hlk : ∀ q, alookup ({ st with peers := aset st.peers p.id p } :
        ServerState).peers q =
        (if p.id = q then some p else alookup st.peers q) := by
      intro q
      show alookup (aset st.peers p.id p) q = _
      rw [alookup_aset]
    have hnomem : ∀ r, ¬memberOf st.rooms r p.id := by
      intro r hm
      have := h.stored r p.id hm
      rw [hnew] at this
      cases this
    refine ⟨h.ok, ?_, ?_, ?_, ?_, ?_, ?_, h.dirOK, ?_⟩
    · intro q p' hq
      rw [hlk] at hq
      by_cases hc : p.id = q
      · rw [if_pos hc] at hq
        cases hq
        exact hip
      · rw [if_neg hc] at hq
        exact h.peerIp q p' hq
    · intro q p' hq
      rw [hlk] at hq
      by_cases hc : p.id = q
      · rw [if_pos hc] at hq
        cases hq
        rw [hrs]
        intro s hs
        cases hs
      · rw [if_neg hc] at hq
        exact h.peerSecrets q p' hq
    · intro q p' hq
      rw [hlk] at hq
      by_cases hc : p.id = q
      · rw [if_pos hc] at hq
        cases hq
        intro r hr
        rw [hpub] at hr
        cases hr
      · rw [if_neg hc] at hq
        exact h.peerPublic q p' hq
    · intro q p' hq
      rw [hlk] at hq
      by_cases hc : p.id = q
      · rw [if_pos hc] at hq
        cases hq
        rw [hrs]
        exact List.nodup_nil
      · rw [if_neg hc] at hq
        exact h.secNodup q p' hq
    · intro q p' hq s hs
      rw [hlk] at hq
      by_cases hc : p.id = q
      · rw [if_pos hc] at hq
        cases hq
        rw [hrs]
        show s ∈ ([] : List String) ↔ memberOf st.rooms s q
        subst hc
        simp [hnomem s]
      · rw [if_neg hc] at hq
        exact h.secSym q p' hq s hs
    · intro q p' hq r hr
      rw [hlk] at hq
      by_cases hc : p.id = q
      · rw [if_pos hc] at hq
        cases hq
        rw [hpub]
        show (none : Option String) = some r ↔ memberOf st.rooms r q
        subst hc
        simp [hnomem r]
      · rw [if_neg hc] at hq
        exact h.pubSym q p' hq r hr
    · intro r q hm
      rw [hlk]
      by_cases hc : p.id = q
      · rw [if_pos hc]
        rfl
      · rw [if_neg hc]
        exact h.stored r q hm

theorem inv_step (cls : String → NameClass) (fb : Bool) (st : ServerState)
    (e : Event) (h : Inv cls st) (hwf : WFev cls e) :
    Inv cls (step fb st e).1 := by
  cases e with
  | connect p =>
    obtain ⟨hrs, hpub, hip⟩ := hwf
    exact inv_connect cls st p h hrs hpub hip
  | msgDisconnect pid => exact inv_disconnect cls st pid h
  | pong pid => exact h
  | joinIp pid => exact inv_joinIpRoom cls st pid h
  | roomSecretsMsg pid ss => exact inv_onRoomSecrets cls st pid ss h hwf
  | roomSecretsDeletedMsg pid ss =>
    exact inv_onRoomSecretsDeleted cls ss st pid h hwf
  | pairDeviceInitiate pid rs k => exact inv_onPairDeviceInitiate cls st pid rs k h hwf
  | pairDeviceJoin pid k => exact inv_onPairDeviceJoin cls st pid k h
  | pairDeviceCancel pid => exact inv_onPairDeviceCancel cls st pid h
  | regenerateRoomSecret pid oldS newS =>
    exact inv_onRegenerateRoomSecret cls st pid oldS newS h hwf
  | createPublicRoom pid rid => exact inv_onCreatePublicRoom cls st pid rid h hwf
  | joinPublicRoom pid rid ci => exact inv_onJoinPublicRoom cls st pid rid ci h hwf
  | leavePublicRoomMsg pid => exact inv_onLeavePublicRoom cls st pid h
  | signal pid m => exact h
  | binaryFrame pid data => exact h

theorem inv_runState (cls : String → NameClass) (fb : Bool) (evs : List Event) :
    ∀ (st : ServerState), Inv cls st → (∀ e ∈ evs, WFev cls e) →
      Inv cls (runState fb st evs) := by
  induction evs with
  | nil => intro st h _; exact h
  | cons e t ih =>
    intro st h hwf
    exact ih _ (inv_step cls fb st e h (hwf e (by simp)))
      (fun e2 he2 => hwf e2 (by simp [he2]))

/-- C8 (amended): provided every room key stays in a single namespace (a
classifier assigns each string one namespace and every handler input is
classified correctly, the spec's three disjoint namespaces), then after
any finite sequence of handler executions from the empty state, for every
stored peer P: a secret s is in P.roomSecrets iff the registry entry for
s exists and contains P.id, and P.publicRoomId = r iff the registry entry
for r exists and contains P.id. -/
theorem spec_C8_amended (cls : String → NameClass) (fb : Bool)
    (evs : List Event) (hwf : ∀ e ∈ evs, WFev cls e) (pid : String)
    (p : PeerData)
    (hp : alookup (runState fb initState evs).peers pid = some p) :
    (∀ s, cls s = NameClass.secretClass →
      (s ∈ p.roomSecrets ↔
        ∃ mems, alookup (runState fb initState evs).rooms s = some mems ∧
          pid ∈ mems)) ∧
    (∀ r, cls r = NameClass.publicClass →
      (p.publicRoomId = some r ↔
        ∃ mems, alookup (runState fb initState evs).rooms r = some mems ∧
          pid ∈ mems)) := by
  have hinv : Inv cls (runState fb initState evs) :=
    inv_runState cls fb evs initState (inv_initState cls) hwf
  constructor
  · intro s hs
    rw [hinv.secSym pid p hp s hs, memberOf_def]
  · intro r hr
    rw [hinv.pubSym pid p hp r hr, memberOf_def]

/-- A 64-character string usable both as a public-room id and as a room
secret. -/
def s64z : String := String.mk (List.replicate 64 'z')

/-- C8 counterexample trace: the peer creates/joins the public room named
s64z, then registers s64z as a room secret (rejoining the same registry
entry), then leaves the public room, which deletes the entry. -/
def evsC8 : List Event :=
  [Event.connect (wsPeer "p" "9.9.9.9"),
   Event.joinPublicRoom "p" s64z true,
   Event.roomSecretsMsg "p" [s64z],
   Event.leavePublicRoomMsg "p"]

set_option maxRecDepth 4000 in
/-- C8 counterexample: after the trace, s64z is in the peer's roomSecrets
but the registry has no entry for s64z at all, refuting the claimed iff
when one string is used in two namespaces. -/
theorem spec_C8_counterexample :
    ((alookup (runState false initState evsC8).peers "p").map
      PeerData.roomSecrets = some [s64z]) ∧
    alookup (runState false initState evsC8).rooms s64z = none := by
  decide

/-- The classifier of the C8 witness: 64-or-longer strings are secrets,
the fixture ip is ip-class, everything else public. -/
def clsW : String → NameClass := fun s =>
  if 64 ≤ s.length then NameClass.secretClass
  else if s = "9.9.9.9" then NameClass.ipClass
  else NameClass.publicClass

/-- The C8 witness trace: connect and register one room secret. -/
def evsW : List Event :=
  [Event.connect (wsPeer "p" "9.9.9.9"),
   Event.roomSecretsMsg "p" [s64z]]

/-- The peer record after the witness trace. -/
def pFinalW : PeerData := { wsPeer "p" "9.9.9.9" with roomSecrets := [s64z] }

set_option maxRecDepth 4000 in
/-- Closed instance of the amended C8 at a concrete well-classified
trace. -/
theorem spec_C8_witness :
    (s64z ∈ pFinalW.roomSecrets ↔
      ∃ mems, alookup (runState false initState evsW).rooms s64z = some mems ∧
        "p" ∈ mems) ∧
    (pFinalW.publicRoomId = some "abcde" ↔
      ∃ mems, alookup (runState false initState evsW).rooms "abcde" = some mems ∧
        "p" ∈ mems) := by
  have hwf : ∀ e ∈ evsW, WFev clsW e := by
    intro e he
    rcases List.mem_cons.mp he with rfl | he2
    · refine ⟨rfl, rfl, ?_⟩
      decide
    · rcases List.mem_cons.mp he2 with rfl | he3
      · exact (by decide : ∀ s ∈ ([s64z].filter isSecretShaped),
          clsW s = NameClass.secretClass)
      · cases he3
  have hlook : alookup (runState false initState evsW).peers "p" = some pFinalW := by
    decide
  have hmain := spec_C8_amended clsW false evsW hwf "p" pFinalW hlook
  exact ⟨hmain.1 s64z (by decide), hmain.2 "abcde" (by decide)⟩

/-- A UUID-shaped sender id for the C10 scenarios. -/
def uuidS : String := "aaaaaaaa-0000-4000-8000-000000000000"

/-- State in which the sender occupies room r. -/
def stX1 : ServerState := ⟨[("r", [uuidS])], [], [(uuidS, wsPeer uuidS "1.1.1.1")]⟩

/-- The same state without the sender's membership (the room, emptied, is
deleted by the registry). -/
def stX2 : ServerState := ⟨[], [], [(uuidS, wsPeer uuidS "1.1.1.1")]⟩

/-- A signal the sender addresses to itself in room r. -/
def msgX : Msg := ⟨"signal", none, some "r", some uuidS, none, []⟩

/-- C10 counterexample: the two states differ only in the sender's own
membership, yet a self-addressed signal is relayed in one and dropped in
the other, so relay output is not independent of the sender's membership
when the recipient is the sender itself. -/
theorem spec_C10_counterexample :
    stX1.peers = stX2.peers ∧
    (∀ q, q ≠ uuidS → ∀ r, memberOf stX1.rooms r q ↔ memberOf stX2.rooms r q) ∧
    signalAndRelay stX1 uuidS msgX ≠ signalAndRelay stX2 uuidS msgX := by
  refine ⟨rfl, ?_, by decide⟩
  intro q hq r
  have h2 : ¬memberOf stX2.rooms r q := by
    intro hmm
    rcases (memberOf_def _ _ _).mp hmm with ⟨mems, hl, _⟩
    cases hl
  constructor
  · intro h1
    exfalso
    apply hq
    by_cases hr : ("r" : String) = r
    · have hro : alookup stX1.rooms r = some [uuidS] := by
        show alookup [("r", [uuidS])] r = _
        simp [alookup, hr]
      have := (memberOf_iff_of_some hro).mp h1
      simpa using this
    · exact absurd h1 (not_memberOf_of_none (by
        show alookup [("r", [uuidS])] r = none
        simp [alookup, hr]))
  · intro h1
    exact absurd h1 h2

/-- States for the amended C10 witness: the sender p does or does not
occupy the target room alongside the recipient. -/
def stY1 : ServerState :=
  ⟨[("r", ["p", uuidW])], [],
   [("p", wsPeer "p" "1.1.1.1"), (uuidW, wsPeer uuidW "1.1.1.1")]⟩

def stY2 : ServerState :=
  ⟨[("r", [uuidW])], [],
   [("p", wsPeer "p" "1.1.1.1"), (uuidW, wsPeer uuidW "1.1.1.1")]⟩

def msgY : Msg := ⟨"signal", none, some "r", some uuidW, none, []⟩

/-- Closed instance of the amended C10: removing the sender from the
target room leaves the relay output unchanged. -/
theorem spec_C10_witness :
    signalAndRelay stY1 "p" msgY = signalAndRelay stY2 "p" msgY :=
  spec_C10_amended.1 stY1 stY2 "p" uuidW msgY rfl (by decide) (by decide)
    (by
      intro q hq r
      by_cases hr : ("r" : String) = r
      · have h1 : alookup stY1.rooms r = some ["p", uuidW] := by
          show alookup [("r", ["p", uuidW])] r = _
          simp [alookup, hr]
        have h2 : alookup stY2.rooms r = some [uuidW] := by
          show alookup [("r", [uuidW])] r = _
          simp [alookup, hr]
        rw [memberOf_iff_of_some h1, memberOf_iff_of_some h2]
        simp [hq]
      · rw [iff_iff_implies_and_implies]
        constructor
        · intro h1
          exact absurd h1 (not_memberOf_of_none (by
            show alookup [("r", ["p", uuidW])] r = none
            simp [alookup, hr]))
        · intro h1
          exact absurd h1 (not_memberOf_of_none (by
            show alookup [("r", [uuidW])] r = none
            simp [alookup, hr])))

end PairDrop
